import Mathlib

/-!
Verification of the audio-track decision & safe-replacement engine of the
tdarr-plugins repository.

Shallow embedding of:
* `src/unnamed/part_000`, first document: the "Process Audio Complete" flow
  plugin (namespace `Proc`);
* `src/unnamed/part_000`, third document: the "Check Main Audio Stream
  Channels" plugin (namespace `Check`);
* `src/server/.../audio/createStereoDownmix/1.0.0/index.js` (namespaces
  `Downmix`, `Commit`, `Lock`);
* `src/server/.../audio/normalizeAudioTitles/1.0.0/index.js`
  (namespace `Normalize`).

Probed streams are modelled by the `ProbeStream` structure below; JavaScript
strings are Lean `String`s, a missing tag is the empty string exactly as in
the source, whose tag access falls back to the empty string.  JavaScript's
`Array.prototype.sort` with the source's consistent two-key comparator is
modelled by `List.insertionSort`, which computes the same (unique) stable
sorted permutation.
-/

/-- One probed stream record, as consumed by the plugins: `codec_type`,
`codec_name`, `channels`, `tags.language`, `tags.title`, `profile` and the
default-disposition indicator.  Missing string tags are `""`; the
disposition check (`=== 1` resp. `1/true/'1'`) is collapsed into a `Bool`. -/
structure ProbeStream where
  isAudio : Bool
  codecName : String
  channels : Nat
  language : String
  title : String
  profile : String
  isDefault : Bool
  deriving Repr, DecidableEq

/-- ASCII lower-casing of one character, the behaviour of JavaScript's
`toLowerCase` on the ASCII inputs processed here. -/
def jsLowerChar (c : Char) : Char :=
  if 'A' ≤ c ∧ c ≤ 'Z' then Char.ofNat (c.toNat + 32) else c

/-- ASCII upper-casing of one character (JavaScript `toUpperCase`). -/
def jsUpperChar (c : Char) : Char :=
  if 'a' ≤ c ∧ c ≤ 'z' then Char.ofNat (c.toNat - 32) else c

/-- JavaScript `s.toLowerCase()`. -/
def jsLower (s : String) : String := ⟨s.data.map jsLowerChar⟩

/-- JavaScript `s.toUpperCase()`. -/
def jsUpper (s : String) : String := ⟨s.data.map jsUpperChar⟩

/-- Does `needle` occur as a contiguous subsequence of `hay`?  Models
JavaScript `hay.indexOf(needle) !== -1`. -/
def listContainsSeq (hay needle : List Char) : Bool :=
  match hay with
  | [] => needle.isEmpty
  | c :: t => needle.isPrefixOf (c :: t) || listContainsSeq t needle

/-- JavaScript `hay.indexOf(needle) !== -1` on strings. -/
def containsStr (hay needle : String) : Bool :=
  listContainsSeq hay.data needle.data

/-- Index of the first element of `l` equal to `x`, mapped through the
source's `-1 → 999` convention: models
`var i = l.indexOf(x); if (i === -1) i = 999;`. -/
def jsIndexOr999 (l : List String) (x : String) : Nat :=
  match l.findIdx? (fun y => y = x) with
  | some i => i
  | none => 999

/-- JavaScript `parseInt(v) || d` applied to an already-parsed value:
`none` models `NaN`, and `some 0` also falls back because `0` is falsy. -/
def jsOrInt (v : Option Int) (d : Int) : Int :=
  match v with
  | none => d
  | some 0 => d
  | some n => n

namespace Proc

/-! ## "Process Audio Complete" (`src/unnamed/part_000`, first document) -/

/-- User policy for the Process Audio Complete plugin, after the input
parsing at the top of `plugin` (lines 220-227). -/
structure Policy where
  createDDP : Bool
  createStereo : Bool
  stereoBitrate : Int
  normalize : Bool
  loudnormTarget : Int
  languagePriority : List String
  codecPriority : List String
  defaultLanguage : String
  deriving Repr, DecidableEq

/-- Source: `normalizeLangCode`, lines 183-201: 2-letter ISO 639-1 to 3-letter
bibliographic, then 3-letter terminology to bibliographic. -/
def normalizeLangCode (code : String) : String :=
  if code = "" then "und"
  else
    let c := jsLower code
    let two :=
      if c = "en" then some "eng" else if c = "fr" then some "fre"
      else if c = "es" then some "spa" else if c = "de" then some "ger"
      else if c = "it" then some "ita" else if c = "pt" then some "por"
      else if c = "nl" then some "dut" else if c = "sv" then some "swe"
      else if c = "no" then some "nor" else if c = "da" then some "dan"
      else if c = "fi" then some "fin" else if c = "pl" then some "pol"
      else if c = "cs" then some "cze" else if c = "ja" then some "jpn"
      else if c = "ko" then some "kor" else if c = "zh" then some "chi"
      else if c = "ar" then some "ara" else if c = "ru" then some "rus"
      else if c = "uk" then some "ukr" else none
    match (if c.length = 2 then two else none) with
    | some m => m
    | none =>
      if c = "fra" then "fre" else if c = "deu" then "ger"
      else if c = "nld" then "dut" else if c = "zho" then "chi"
      else if c = "ces" then "cze" else if c = "ron" then "rum"
      else c

/-- Source: `LANGUAGE_MAP`, lines 110-122 (exact-key lookup). -/
def languageMap (c : String) : Option String :=
  if c = "eng" ∨ c = "en" then some "English"
  else if c = "fre" ∨ c = "fra" ∨ c = "fr" then some "French"
  else if c = "spa" ∨ c = "es" then some "Spanish"
  else if c = "ger" ∨ c = "deu" ∨ c = "de" then some "German"
  else if c = "ita" ∨ c = "it" then some "Italian"
  else if c = "jpn" ∨ c = "ja" then some "Japanese"
  else if c = "por" ∨ c = "pt" then some "Portuguese"
  else if c = "rus" ∨ c = "ru" then some "Russian"
  else if c = "chi" ∨ c = "zho" ∨ c = "zh" then some "Chinese"
  else if c = "kor" ∨ c = "ko" then some "Korean"
  else if c = "dut" ∨ c = "nld" ∨ c = "nl" then some "Dutch"
  else none

/-- Source: `getLanguageName`, lines 124-129. -/
def getLanguageName (code defaultLang : String) : String :=
  if code = "" ∨ code = "und" ∨ code = "unk" then
    (languageMap defaultLang).getD "Unknown"
  else
    (languageMap (jsLower code)).getD code

/-- Source: `getCodecDisplayName`, lines 131-155. -/
def getCodecDisplayName (codecName profile : String) : String :=
  let codec := jsLower codecName
  let prof := jsLower profile
  if codec = "eac3" then
    if containsStr prof "joc" then "DD+ Atmos" else "DD+"
  else if codec = "ac3" then "DD"
  else if codec = "dts" ∨ codec = "dca" then
    if containsStr prof "ma" ∨ containsStr prof "master" then "DTS-HD MA"
    else if containsStr prof "hra" then "DTS-HD HRA"
    else if containsStr prof "x" ∧ ¬ containsStr prof "express" then "DTS:X"
    else "DTS"
  else if codec = "truehd" then
    if containsStr prof "atmos" then "TrueHD Atmos" else "TrueHD"
  else if codec = "aac" then "AAC"
  else if codec = "flac" then "FLAC"
  else if codec = "opus" then "Opus"
  else if containsStr codec "pcm" then "PCM"
  else jsUpper codec

/-- Source: `getChannelDisplay`, lines 157-166. -/
def getChannelDisplay (channels : Nat) (profile : String) : String :=
  let prof := jsLower profile
  if containsStr prof "joc" ∨ containsStr prof "atmos" then "Atmos"
  else if channels = 8 then "7.1"
  else if channels = 7 then "6.1"
  else if channels = 6 then "5.1"
  else if channels = 2 then "Stereo"
  else if channels = 1 then "Mono"
  else toString channels ++ "ch"

/-- Source: `getPanFilter`, lines 169-180: the stereo-downmix filter fragment
chosen by the main track's channel count. -/
def getPanFilter (channels : Nat) : String :=
  if channels = 8 then
    "pan=stereo|FL=0.70*FL+0.70*FC+0.25*SL+0.20*BL+0.20*LFE|FR=0.70*FR+0.70*FC+0.25*SR+0.20*BR+0.20*LFE"
  else if channels ≥ 6 then
    "pan=stereo|FL=0.70*FL+0.70*FC+0.30*SL+0.30*BL+0.25*LFE|FR=0.70*FR+0.70*FC+0.30*SR+0.30*BR+0.25*LFE"
  else if channels > 2 then
    "pan=stereo|FL=0.70*FL+0.70*FC|FR=0.70*FR+0.70*FC"
  else
    "aformat=channel_layouts=stereo"

/-- One classified audio stream (the records pushed onto `audioStreams`,
lines 259-270). -/
structure AudioInfo where
  audioIndex : Nat
  codec : String
  codecLower : String
  channels : Nat
  language : String
  normLang : String
  profile : String
  title : String
  isDefault : Bool
  deriving Repr, DecidableEq

/-- The classification loop (lines 251-289) restricted to building
`audioStreams`; the counter is the running `audioStreams.length`. -/
def classifyGo (n : Nat) : List ProbeStream → List AudioInfo
  | [] => []
  | s :: rest =>
    if s.isAudio then
      { audioIndex := n
        codec := s.codecName
        codecLower := jsLower s.codecName
        channels := s.channels
        language := s.language
        normLang := normalizeLangCode s.language
        profile := s.profile
        title := s.title
        isDefault := s.isDefault } :: classifyGo (n + 1) rest
    else
      classifyGo n rest

/-- Source: `audioStreams` after the classification loop. -/
def classify (streams : List ProbeStream) : List AudioInfo :=
  classifyGo 0 streams

/-- The main-track accumulator of the classification loop
(`mainAudioIndex` / `mainAudioChannels` / `mainAudioLang` /
`mainAudioCodec`, lines 246-249). -/
structure MainSel where
  idx : Nat
  channels : Nat
  lang : String
  codec : String
  deriving Repr, DecidableEq

/-- The update `if (currentAudioIdx === 0 || default) { ... }` performed for
each audio stream (lines 276-282). -/
def mainStep (defaultLanguage : String) (m : MainSel) (a : AudioInfo) : MainSel :=
  if a.audioIndex = 0 ∨ a.isDefault then
    { idx := a.audioIndex
      channels := if a.channels = 0 then 2 else a.channels
      lang := if a.normLang = "" then defaultLanguage else a.normLang
      codec := a.codecLower }
  else m

/-- Main-track selection of the Process Audio Complete plugin: the fold of
`mainStep` over the classified audio streams, starting from the initial
variable values of lines 246-249. -/
def mainSel (defaultLanguage : String) (audios : List AudioInfo) : MainSel :=
  audios.foldl (mainStep defaultLanguage)
    { idx := 0, channels := 0, lang := defaultLanguage, codec := "" }

/-- Source: `hasEnglishStereo` (lines 284-288): some audio stream is stereo and
normalizes to `eng`, or carries an empty or `und` language tag. -/
def hasEnglishStereo (audios : List AudioInfo) : Bool :=
  audios.any fun a =>
    a.channels = 2 ∧ (a.normLang = "eng" ∨ a.language = "" ∨ a.language = "und")

/-- Source: `mainIsDTS` (line 297). -/
def mainIsDTS (pol : Policy) (streams : List ProbeStream) : Bool :=
  let m := mainSel pol.defaultLanguage (classify streams)
  m.codec = "dts" ∨ m.codec = "dca"

/-- Source: `needsDDP` (line 298). -/
def needsDDP (pol : Policy) (streams : List ProbeStream) : Bool :=
  pol.createDDP ∧ mainIsDTS pol streams

/-- Source: `needsStereo` (line 299). -/
def needsStereo (pol : Policy) (streams : List ProbeStream) : Bool :=
  pol.createStereo
    ∧ (mainSel pol.defaultLanguage (classify streams)).channels > 2
    ∧ ¬ hasEnglishStereo (classify streams)

/-- One entry of the `outputAudio` work list (lines 306-359).  `source`
holds the audio index parsed from the `0:a:k` mapping string (`none`
models the filter-label entry whose `source` is `null`); `title` and
`isOriginalMark` are filled in by the title pass. -/
structure OutTrack where
  source : Option Nat
  codec : String
  bitrate : Option Int
  language : String
  channels : Nat
  profile : String
  originalCodec : String
  isNew : Bool
  isDDP : Bool
  isStereo : Bool
  title : String
  isOriginalMark : Bool
  deriving Repr, DecidableEq

/-- The DD+ entry pushed first when `needsDDP` (lines 311-323). -/
def ddpTrack (main : MainSel) : OutTrack :=
  { source := some main.idx, codec := "eac3", bitrate := some 640
    language := main.lang, channels := main.channels, profile := ""
    originalCodec := "", isNew := true, isDDP := true, isStereo := false
    title := "", isOriginalMark := false }

/-- The per-existing-stream copy entries (lines 326-341). -/
def copyTracks (main : MainSel) (audios : List AudioInfo) : List OutTrack :=
  audios.map fun a =>
    { source := some a.audioIndex, codec := "copy", bitrate := none
      language := if a.language = "" then main.lang else a.language
      channels := a.channels, profile := a.profile, originalCodec := a.codec
      isNew := false, isDDP := false, isStereo := false
      title := "", isOriginalMark := false }

/-- The stereo entry pushed last when `needsStereo` (lines 344-359). -/
def stereoTrack (pol : Policy) (main : MainSel) : OutTrack :=
  { source := none, codec := "aac", bitrate := some pol.stereoBitrate
    language := main.lang, channels := 2, profile := ""
    originalCodec := "", isNew := true, isDDP := false, isStereo := true
    title := "", isOriginalMark := false }

/-- The initial `outputAudio` list (DD+ first, copies, stereo last). -/
def outputAudioInit (pol : Policy) (streams : List ProbeStream) : List OutTrack :=
  let audios := classify streams
  let main := mainSel pol.defaultLanguage audios
  (if needsDDP pol streams then [ddpTrack main] else [])
    ++ copyTracks main audios
    ++ (if needsStereo pol streams then [stereoTrack pol main] else [])

/-- Primary sort key of the comparator at lines 368-373: index of the
normalized language in the priority list, unmatched mapped to 999. -/
def langRank (pol : Policy) (t : OutTrack) : Nat :=
  jsIndexOr999 pol.languagePriority (normalizeLangCode t.language)

/-- Secondary sort key (lines 375-379): index of the lower-cased original
codec in the codec priority list; the empty string is looked up when the
field is missing. -/
def codecRank (pol : Policy) (t : OutTrack) : Nat :=
  jsIndexOr999 pol.codecPriority
    (if t.originalCodec = "" then "" else jsLower t.originalCodec)

/-- The two-key lexicographic sort key. -/
def sortKey (pol : Policy) (t : OutTrack) : Nat × Nat :=
  (langRank pol t, codecRank pol t)

/-- Lexicographic order on the key pairs, the order computed by the
comparator of lines 368-380. -/
def keyLe (p q : Nat × Nat) : Prop :=
  p.1 < q.1 ∨ (p.1 = q.1 ∧ p.2 ≤ q.2)

instance : DecidableRel keyLe := fun p q => by
  unfold keyLe; infer_instance

/-- The comparator as a relation on tracks. -/
def trackLe (pol : Policy) (a b : OutTrack) : Prop :=
  keyLe (sortKey pol a) (sortKey pol b)

instance (pol : Policy) : DecidableRel (trackLe pol) := fun a b => by
  unfold trackLe; infer_instance

/-- The stable sort of the existing (non-new) tracks, lines 363-380.
`Array.prototype.sort` is stable and the comparator is induced by
`sortKey`, so it computes exactly the insertion sort by `trackLe`. -/
def sortedOriginals (pol : Policy) (streams : List ProbeStream) : List OutTrack :=
  List.insertionSort (trackLe pol)
    ((outputAudioInit pol streams).filter fun t => ¬ t.isNew)

/-- The reassembled `outputAudio` of line 383:
`newDDP.concat(originalTracks).concat(newStereo)`. -/
def outputAudioSorted (pol : Policy) (streams : List ProbeStream) : List OutTrack :=
  ((outputAudioInit pol streams).filter fun t => t.isDDP)
    ++ sortedOriginals pol streams
    ++ ((outputAudioInit pol streams).filter fun t => t.isStereo)

/-- The language key used by the title pass (line 389):
`normalizeLangCode(track.language) || defaultLanguage`. -/
def titleLangKey (pol : Policy) (t : OutTrack) : String :=
  let l := normalizeLangCode t.language
  if l = "" then pol.defaultLanguage else l

/-- The title computed for one track given the current seen-language set
(lines 388-417). -/
def titleOf (pol : Policy) (seen : List String) (t : OutTrack) : String × Bool :=
  let lang := titleLangKey pol t
  let langName := getLanguageName t.language pol.defaultLanguage
  let isOriginal := ¬ seen.contains lang ∧ ¬ t.isNew
  let codecDisplay :=
    if t.isDDP then "DD+"
    else if t.isStereo then "AAC"
    else getCodecDisplayName t.originalCodec t.profile
  let channelDisplay0 := getChannelDisplay t.channels t.profile
  let channelDisplay :=
    if containsStr codecDisplay "Atmos" ∧ channelDisplay0 = "Atmos" then
      if t.channels = 8 then "7.1" else "5.1"
    else channelDisplay0
  ((if isOriginal ∧ ¬ t.isNew then langName ++ " Original" else langName)
      ++ " - " ++ codecDisplay ++ " - " ++ channelDisplay,
    decide (isOriginal ∧ ¬ t.isNew))

/-- The title-generation loop (lines 386-420): assigns each track its title
and records whether it received the "Original" descriptor; the seen set
grows only at non-new tracks (lines 394-397). -/
def assignTitles (pol : Policy) (seen : List String) : List OutTrack → List OutTrack
  | [] => []
  | t :: rest =>
    let r := titleOf pol seen t
    let seen' := if t.isNew then seen else titleLangKey pol t :: seen
    { t with title := r.1, isOriginalMark := r.2 } :: assignTitles pol seen' rest

/-- The final titled plan. -/
def plan (pol : Policy) (streams : List ProbeStream) : List OutTrack :=
  assignTitles pol [] (outputAudioSorted pol streams)

/-- Source: `needsTitleFix` (lines 429-437): some sorted original track's
recomputed title differs from the probed title of its source stream. -/
def needsTitleFix (audios : List AudioInfo) (originalTracks : List OutTrack) : Bool :=
  originalTracks.any fun ot =>
    match ot.source with
    | some srcIdx =>
      match audios[srcIdx]? with
      | some orig => orig.title ≠ ot.title
      | none => false
    | none => false

/-- Source: `needsReorder` (lines 440-446): some sorted original track's source is
not `0:a:n` for its output position `n`. -/
def needsReorder (originalTracks : List OutTrack) : Bool :=
  originalTracks.enum.any fun p => p.2.source ≠ some p.1

/-- The titled sorted originals, the list the no-op checks run over (the
loops of lines 429-446 read the `title` fields assigned by the title pass
into the shared track objects). -/
def titledOriginals (pol : Policy) (streams : List ProbeStream) : List OutTrack :=
  (plan pol streams).filter fun t => ¬ t.isNew

/-- Source: `noOpRequired`: the plugin returns "no processing needed" exactly when
no DD+ and no stereo synthesis is required and neither reordering nor a
title fix is needed (lines 423-453). -/
def noOpRequired (pol : Policy) (streams : List ProbeStream) : Bool :=
  ¬ needsDDP pol streams ∧ ¬ needsStereo pol streams
    ∧ ¬ needsReorder (titledOriginals pol streams)
    ∧ ¬ needsTitleFix (classify streams) (titledOriginals pol streams)

/-- The logical state produced by applying the compiled plan (the ffmpeg
invocation of lines 455-519): output streams in plan order; copied tracks
keep codec, channels and profile; every track gets the synthesized title
and the planned language written (lines 497-499) and exactly the first
track gets the default disposition (lines 501-506). -/
def applyPlan (pol : Policy) (streams : List ProbeStream) : List ProbeStream :=
  (plan pol streams).enum.map fun p =>
    { isAudio := true
      codecName := if p.2.codec = "copy" then p.2.originalCodec else p.2.codec
      channels := p.2.channels
      language := if p.2.language = "" then pol.defaultLanguage else p.2.language
      title := p.2.title
      profile := p.2.profile
      isDefault := p.1 = 0 }

end Proc

namespace Check

/-! ## "Check Main Audio Stream Channels" (`src/unnamed/part_000`, third
document) -/

/-- Accumulators of the selection loop at lines 1272-1298: the audio-relative
index of the first audio stream, the audio-relative index of the first
audio stream with default disposition, and the running audio count. -/
structure SelSt where
  firstIdx : Option Nat
  mainIdx : Option Nat
  count : Nat
  deriving Repr, DecidableEq

/-- One iteration of the selection loop. -/
def selStep (st : SelSt) (s : ProbeStream) : SelSt :=
  if s.isAudio then
    { firstIdx := match st.firstIdx with
        | none => some st.count
        | some i => some i
      mainIdx := match st.mainIdx with
        | none => if s.isDefault then some st.count else none
        | some i => some i
      count := st.count + 1 }
  else st

/-- The audio-relative index of the selected target stream
(`targetRelativeIndex`, line 1303): first default-disposition audio stream,
falling back to the first audio stream.  The selection loop of
`createStereoDownmix` (lines 348-378 of that file) is the identical
algorithm, so this definition also models `targetAudioIndex` there. -/
def targetRelIdx (streams : List ProbeStream) : Option Nat :=
  let st := streams.foldl selStep ⟨none, none, 0⟩
  match st.mainIdx with
  | some i => some i
  | none => st.firstIdx

/-- Source: `validConditions`, line 1229. -/
def validConditions : List String := ["stereo", "multichannel", "mono"]

/-- The audio streams of a probe list, in order. -/
def audioList (streams : List ProbeStream) : List ProbeStream :=
  streams.filter fun s => s.isAudio

/-- The output number computed by the Check plugin (lines 1226-1373):
invalid condition strings are rejected with output 2 before any stream is
inspected; otherwise the chosen condition is evaluated against the target
stream's channel count. -/
def run (condition : String) (streams : List ProbeStream) : Nat :=
  if ¬ validConditions.contains condition then 2
  else
    match targetRelIdx streams with
    | none => 2
    | some i =>
      match (audioList streams)[i]? with
      | none => 2
      | some s =>
        let isMatch : Bool :=
          if condition = "stereo" then s.channels = 2
          else if condition = "multichannel" then decide (s.channels > 2)
          else s.channels = 1
        if isMatch then 1 else 2

end Check

namespace Downmix

/-! ## createStereoDownmix/1.0.0/index.js -/

/-- JavaScript `\s` (ECMA-262 WhiteSpace and LineTerminator characters). -/
def isJsSpace (c : Char) : Bool :=
  c = ' ' ∨ c = '\t' ∨ c = '\n' ∨ c = '\r' ∨ c = '\x0b' ∨ c = '\x0c'
    ∨ c = ' ' ∨ c = ' '
    ∨ (' ' ≤ c ∧ c ≤ ' ')
    ∨ c = ' ' ∨ c = ' ' ∨ c = ' ' ∨ c = ' '
    ∨ c = '　' ∨ c = '﻿'

/-- ASCII letters and digits. -/
def isAlphaNumAscii (c : Char) : Bool :=
  ('a' ≤ c ∧ c ≤ 'z') ∨ ('A' ≤ c ∧ c ≤ 'Z') ∨ ('0' ≤ c ∧ c ≤ '9')

/-- The character class `[a-zA-Z0-9\s\-_()]` kept by the first replace of
`sanitizeTrackTitle` (line 107). -/
def keepChar (c : Char) : Bool :=
  isAlphaNumAscii c ∨ isJsSpace c ∨ c = '-' ∨ c = '_' ∨ c = '(' ∨ c = ')'

/-- Source: `replace(/\s+/g, ' ')`: collapse every whitespace run to one space.
The flag records whether the previous character was whitespace. -/
def collapseWs (prevWs : Bool) : List Char → List Char
  | [] => []
  | c :: rest =>
    if isJsSpace c then
      if prevWs then collapseWs true rest
      else ' ' :: collapseWs true rest
    else c :: collapseWs false rest

/-- JavaScript `trim()`: drop leading and trailing whitespace. -/
def trimWs (l : List Char) : List Char :=
  ((l.dropWhile isJsSpace).reverse.dropWhile isJsSpace).reverse

/-- Source: `sanitizeTrackTitle`, lines 103-113.  A non-string input (modelled by
`none`) yields `"Stereo"`; otherwise restrict to the safe character class,
collapse whitespace, trim, truncate to 64 characters and fall back to
`"Stereo"` when nothing survives. -/
def sanitizeTrackTitle (title : Option String) : String :=
  match title with
  | none => "Stereo"
  | some t =>
    let s1 := t.data.filter keepChar
    let s2 := trimWs (collapseWs false s1)
    let s3 := s2.take 64
    if s3.isEmpty then "Stereo" else ⟨s3⟩

/-- Source: `validateBitrate`, lines 116-122, applied to the parsed input
(`none` models `NaN`). -/
def validateBitrate (bitrate : Option Int) : Int :=
  match bitrate with
  | none => 192
  | some num => if num < 64 ∨ num > 512 then 192 else num

/-- Source: `getPanFilter`, lines 125-172: filter fragment chosen by channel count
and channel-layout string. -/
def getPanFilter (channels : Nat) (channelLayout : String) : String :=
  let layout := jsLower channelLayout
  if channels = 6 ∨ containsStr layout "5.1" then
    "pan=stereo|FL=0.70*FL+0.70*FC+0.30*SL+0.30*BL+0.25*LFE|FR=0.70*FR+0.70*FC+0.30*SR+0.30*BR+0.25*LFE"
  else if channels = 8 ∨ containsStr layout "7.1" then
    "pan=stereo|FL=0.70*FL+0.70*FC+0.25*SL+0.20*BL+0.20*LFE|FR=0.70*FR+0.70*FC+0.25*SR+0.20*BR+0.20*LFE"
  else if channels = 7 ∨ containsStr layout "6.1" then
    "pan=stereo|FL=0.70*FL+0.70*FC+0.30*SL+0.20*BC+0.20*LFE|FR=0.70*FR+0.70*FC+0.30*SR+0.20*BC+0.20*LFE"
  else if channels = 4 ∨ containsStr layout "quad" ∨ containsStr layout "4.0" then
    "pan=stereo|FL=0.80*FL+0.40*SL+0.40*BL|FR=0.80*FR+0.40*SR+0.40*BR"
  else if channels = 3 then
    "pan=stereo|FL=0.70*FL+0.70*FC|FR=0.70*FR+0.70*FC"
  else if channels > 8 then
    "aformat=channel_layouts=stereo"
  else
    "pan=stereo|FL=0.70*FL+0.70*FC+0.30*SL+0.30*BL+0.25*LFE|FR=0.70*FR+0.70*FC+0.30*SR+0.30*BR+0.25*LFE"

/-- The `loudnormTarget` input parse of line 275:
`parseInt(args.inputs.loudnormTarget, 10) || -16`. -/
def loudnormTargetOf (raw : Option Int) : Int :=
  jsOrInt raw (-16)

/-- The loudness options offered by the plugin's dropdown (lines 59-65);
used only to state what an in-range loudness value is. -/
def loudnormOptions : List Int := [-14, -16, -18, -20, -23, -24]

/-- The audio filter chain built at lines 401-410:
pan, then optional loudnorm, then the limiter. -/
def buildAudioFilter (channels : Nat) (channelLayout : String)
    (normalize : Bool) (loudnormTarget : Int) : String :=
  getPanFilter channels channelLayout
    ++ (if normalize then ",loudnorm=I=" ++ toString loudnormTarget ++ ":TP=-1.5:LRA=11" else "")
    ++ ",alimiter=limit=0.95"

end Downmix

namespace Lock

/-! ## Advisory lock of createStereoDownmix (`acquireLock`, lines 200-234) -/

/-- The staleness threshold: `2 * 60 * 60 * 1000` ms (line 213). -/
def staleAgeMs : Nat := 7200000

/-- The backoff sleep: `sleep 0.5` (line 226), in ms. -/
def sleepStepMs : Nat := 500

/-- What one acquisition attempt observes about the lock marker:
exclusive creation succeeds (`free`), the marker exists with a measured
age (`held`), the marker disappears between the failed create and the
stat (`vanished`), or the create fails with a non-`EEXIST` error
(`ioError`). -/
inductive Obs
  | free
  | held (ageMs : Nat)
  | vanished
  | ioError
  deriving Repr, DecidableEq

/-- Result of `acquireLock`: whether the lock was acquired, the elapsed
time on exit, and how many stale markers were unlinked on the way. -/
structure Result where
  acquired : Bool
  elapsedMs : Nat
  staleUnlinks : Nat
  deriving Repr, DecidableEq

/-- Source: `acquireLock`, lines 200-234, over a finite trace of per-attempt
observations.  The loop runs while `Date.now() - start < timeoutMs`; a
stale marker (age strictly above the threshold) is unlinked and the loop
retries immediately; a fresh marker causes a bounded sleep before the
retry; a non-`EEXIST` error aborts with failure. -/
def acquireLock (timeoutMs : Nat) (env : List Obs) (elapsed : Nat) : Result :=
  if timeoutMs ≤ elapsed then ⟨false, elapsed, 0⟩
  else
    match env with
    | [] => ⟨false, elapsed, 0⟩
    | Obs.free :: _ => ⟨true, elapsed, 0⟩
    | Obs.held age :: rest =>
      if staleAgeMs < age then
        let r := acquireLock timeoutMs rest elapsed
        { r with staleUnlinks := r.staleUnlinks + 1 }
      else
        acquireLock timeoutMs rest (elapsed + sleepStepMs)
    | Obs.vanished :: rest => acquireLock timeoutMs rest elapsed
    | Obs.ioError :: _ => ⟨false, elapsed, 0⟩

/-- The lock gate of the plugin (lines 329-334): when `acquireLock` fails
the plugin returns output 2 immediately with the input file object
unchanged — no operation has touched the target file at that point. -/
def runWithLock (timeoutMs : Nat) (env : List Obs) (target : α)
    (work : α → α × Nat) : α × Nat :=
  if (acquireLock timeoutMs env 0).acquired then work target else (target, 2)

end Lock

namespace Commit

/-! ## File replacement of createStereoDownmix (lines 560-620)

The filesystem is abstracted to the three paths the replacement sequence
touches: the original path, the backup path and the temp path.  Each
primitive either succeeds or fails according to a failure schedule;
`renameSync` moves the content atomically (overwriting an existing file at
the destination), a failed `copyFileSync` leaves a torn file at the
destination, and `safeUnlink` swallows its errors. -/

/-- What a path can hold: the original bytes, the verified transcoded
output, or a torn (partially copied) file. -/
inductive Content
  | original
  | fresh
  | torn
  deriving Repr, DecidableEq

/-- Contents of the three relevant paths. -/
structure FS where
  orig : Option Content
  backup : Option Content
  temp : Option Content
  deriving Repr, DecidableEq

/-- Failure schedule: whether each primitive call succeeds when reached. -/
structure Sched where
  renameBackupOk : Bool
  renameSwapOk : Bool
  copyOk : Bool
  unlinkTempOk : Bool
  unlinkPartialOk : Bool
  renameRestoreOk : Bool
  unlinkBackupOk : Bool
  deriving Repr, DecidableEq

/-- Exit states of the replacement sequence. -/
inductive Outcome
  | committed
  | backupFailed
  | rolledBack
  | criticalRestore
  deriving Repr, DecidableEq

/-- The `moveErr` catch block (lines 596-614): `safeUnlink(inputFile)` to
remove a partial file (failure ignored), then `renameSync(backupFile,
inputFile)`; if the restore also fails the backup is left in place and the
failure is reported as critical.  `cleanup(2)` then removes the temp
file. -/
def restorePath (sc : Sched) (fs : FS) : FS × Outcome :=
  let fs1 := if sc.unlinkPartialOk then { fs with orig := none } else fs
  if sc.renameRestoreOk then
    ({ orig := fs1.backup, backup := none, temp := none }, Outcome.rolledBack)
  else
    ({ fs1 with temp := none }, Outcome.criticalRestore)

/-- The replacement sequence, lines 568-620: rename the original to the
backup path; rename the temp output over the original path, falling back
to copy-then-delete; on success delete the backup, on failure restore the
backup. -/
def commitReplace (sc : Sched) (fs : FS) : FS × Outcome :=
  if ¬ sc.renameBackupOk then
    ({ fs with temp := none }, Outcome.backupFailed)
  else
    let fs1 : FS := { orig := none, backup := fs.orig, temp := fs.temp }
    if sc.renameSwapOk then
      let fs2 : FS := { orig := fs1.temp, backup := fs1.backup, temp := none }
      (if sc.unlinkBackupOk then { fs2 with backup := none } else fs2,
        Outcome.committed)
    else if sc.copyOk then
      let fs2 : FS := { orig := fs1.temp, backup := fs1.backup, temp := fs1.temp }
      if sc.unlinkTempOk then
        let fs3 : FS := { fs2 with temp := none }
        (if sc.unlinkBackupOk then { fs3 with backup := none } else fs3,
          Outcome.committed)
      else
        restorePath sc fs2
    else
      restorePath sc { orig := some Content.torn, backup := fs1.backup, temp := fs1.temp }

/-- The initial state when the sequence is entered: the original file at
its path, the verified output at the temp path, no backup. -/
def initialFS : FS :=
  { orig := some Content.original, backup := none, temp := some Content.fresh }

end Commit

namespace Normalize

/-! ## normalizeAudioTitles/1.0.0/index.js -/

/-- Source: `isValidLanguage`, lines 268-272. -/
def isValidLanguage (code : String) : Bool :=
  if code = "" then false
  else
    let lower := jsLower code
    lower ≠ "und" ∧ lower ≠ "unk" ∧ lower ≠ ""

/-- Source: `detectDescriptor`, lines 249-265: recognize secondary-audio markers in
a pre-existing title by case-insensitive substring match. -/
def detectDescriptor (existingTitle : String) : String :=
  if existingTitle = "" then ""
  else
    let lower := jsLower existingTitle
    if containsStr lower "commentary" then "Commentary"
    else if containsStr lower "descriptive" ∨ containsStr lower "described"
        ∨ containsStr lower "audio description" ∨ lower = "ad" then "Descriptive"
    else if containsStr lower "director" then "Directors Commentary"
    else ""

/-- The language-key normalization of lines 339-347. -/
def langKeyOf (langCode : String) : String :=
  if langCode = "fra" then "fre"
  else if langCode = "deu" then "ger"
  else if langCode = "zho" then "chi"
  else if langCode = "ces" then "cze"
  else if langCode = "nld" then "dut"
  else if langCode = "ell" then "gre"
  else if langCode = "msa" then "may"
  else if langCode = "ron" then "rum"
  else langCode

/-- The first pass (lines 311-322): the language inherited from the first
audio track with a valid language tag, defaulting to the configured
language. -/
def inheritedLanguage (defaultLanguage : String) : List ProbeStream → String
  | [] => defaultLanguage
  | s :: rest =>
    if s.isAudio ∧ isValidLanguage s.language then s.language
    else inheritedLanguage defaultLanguage rest

/-- One entry of `audioMetadata` (lines 383-388), extended with the
computed `langKey`, the detected descriptor and the `isOriginal` flag that
decides whether the synthesized title carries the "Original" descriptor
(the title is `{Language} [Original] [Descriptor] - {Codec} -
{Channels}`, so the flag records exactly whether "Original" is present). -/
structure Meta where
  index : Nat
  language : String
  langKey : String
  originalTitle : String
  descriptor : String
  isOriginal : Bool
  deriving Repr, DecidableEq

/-- The effective language of one audio stream (line 335): the stream's
tag when valid, the inherited language otherwise. -/
def effLangOf (inherited : String) (s : ProbeStream) : String :=
  if isValidLanguage s.language then s.language else inherited

/-- The grouping key of one audio stream (lines 336-347). -/
def streamKey (inherited : String) (s : ProbeStream) : String :=
  langKeyOf (jsLower (effLangOf inherited s))

/-- The metadata entry built for one audio stream (lines 334-388) given
the current seen-language set: the first occurrence of a key is marked
"Original" (line 350) unless a secondary-audio descriptor is detected in
the pre-existing title (lines 355-360). -/
def metaOf (inherited : String) (seen : List String) (idx : Nat)
    (s : ProbeStream) : Meta :=
  { index := idx
    language := effLangOf inherited s
    langKey := streamKey inherited s
    originalTitle := s.title
    descriptor := detectDescriptor s.title
    isOriginal :=
      if detectDescriptor s.title ≠ "" then false
      else ! seen.contains (streamKey inherited s) }

/-- The second pass (lines 329-392): one metadata entry per audio stream;
the seen set grows at every audio stream (line 351). -/
def buildMetasGo (inherited : String) (seen : List String) (idx : Nat) :
    List ProbeStream → List Meta
  | [] => []
  | s :: rest =>
    if s.isAudio then
      metaOf inherited seen idx s
        :: buildMetasGo inherited (streamKey inherited s :: seen) (idx + 1) rest
    else
      buildMetasGo inherited seen idx rest

/-- Source: `audioMetadata` for a probe list and default language. -/
def buildMetas (defaultLanguage : String) (streams : List ProbeStream) : List Meta :=
  buildMetasGo (inheritedLanguage defaultLanguage streams) [] 0 streams

end Normalize

namespace Check

/-- Audio-relative index of the first audio stream carrying the
default-disposition flag (specification-side description of main-track
selection, used to compare the two selection loops against the spec). -/
def firstDefaultRelGo (n : Nat) : List ProbeStream → Option Nat
  | [] => none
  | s :: rest =>
    if s.isAudio then
      if s.isDefault then some n else firstDefaultRelGo (n + 1) rest
    else firstDefaultRelGo n rest

/-- Audio-relative index of the first default-flagged audio stream. -/
def firstDefaultRel (streams : List ProbeStream) : Option Nat :=
  firstDefaultRelGo 0 streams

end Check

namespace Proc

/-- The record written by a firing `mainStep` trigger for audio stream `a`. -/
def mkMain (defaultLanguage : String) (a : AudioInfo) : MainSel :=
  { idx := a.audioIndex
    channels := if a.channels = 0 then 2 else a.channels
    lang := if a.normLang = "" then defaultLanguage else a.normLang
    codec := a.codecLower }

/-- The downmix requirement as the specification words it (claim C4): the
downmix flag is enabled, the main track's channel count exceeds 2, and no
existing track is stereo with a language matching the configured default
language or carrying no/undetermined language tag.  Stated from the
spec's words, for comparison with the code's `needsStereo`. -/
def needsDownmixSpec (pol : Policy) (streams : List ProbeStream) : Bool :=
  pol.createStereo
    ∧ (mainSel pol.defaultLanguage (classify streams)).channels > 2
    ∧ ¬ streams.any fun s =>
        s.isAudio ∧ s.channels = 2
          ∧ (normalizeLangCode s.language = pol.defaultLanguage
              ∨ s.language = "" ∨ s.language = "und")

end Proc

namespace Downmix

/-- The characters the specification allows in a sanitized track title:
alphanumerics, spaces, hyphens, underscores and parentheses. -/
def allowedTitleChar (c : Char) : Bool :=
  isAlphaNumAscii c ∨ c = ' ' ∨ c = '-' ∨ c = '_' ∨ c = '(' ∨ c = ')'

end Downmix

/-! ## Concrete fixtures used by counterexamples and witnesses -/

/-- The plugin's default policy: DD+ and stereo synthesis enabled,
languages `eng,fre`, codecs `eac3,dts,aac`, default language `eng`. -/
def defaultPolicy : Proc.Policy :=
  { createDDP := true, createStereo := true, stereoBitrate := 256
    normalize := true, loudnormTarget := -16
    languagePriority := ["eng", "fre"], codecPriority := ["eac3", "dts", "aac"]
    defaultLanguage := "eng" }

/-- An audio probe record with the given fields (non-audio fields empty). -/
def mkAudio (codecName : String) (channels : Nat) (language title : String)
    (isDefault : Bool) : ProbeStream :=
  { isAudio := true, codecName := codecName, channels := channels
    language := language, title := title, profile := "", isDefault := isDefault }

/-! ## Theorems -/

/-- C7 (counterexample): the claim asserts distinct weighted mixing
coefficients for 8-, 7- and 6-channel inputs, but the Process Audio
Complete engine returns the same filter fragment for a 7-channel input as
for a 6-channel input. -/
theorem panFilter_seven_equals_six_cex :
    Proc.getPanFilter 7 = Proc.getPanFilter 6 := by decide

/-- C7 (amended): in the Process Audio Complete engine the 8-channel mix
is distinct, every count of 6 or more other than 8 shares the 6-channel
coefficients, counts 3-5 get the simple center blend and counts up to 2
get the passthrough reformat; in createStereoDownmix (empty layout string)
8, 7, 6 have pairwise distinct coefficients, 4 has a quad mix, 3 the
center blend, counts above 8 the passthrough reformat, and all remaining
counts (0, 1, 2, 5) fall back to the 6-channel coefficients. -/
theorem panFilter_amended :
    (Proc.getPanFilter 8 ≠ Proc.getPanFilter 6
      ∧ ∀ c : Nat, 6 ≤ c → c ≠ 8 → Proc.getPanFilter c = Proc.getPanFilter 6)
    ∧ (∀ c : Nat, 3 ≤ c → c ≤ 5 →
        Proc.getPanFilter c = "pan=stereo|FL=0.70*FL+0.70*FC|FR=0.70*FR+0.70*FC")
    ∧ (∀ c : Nat, c ≤ 2 → Proc.getPanFilter c = "aformat=channel_layouts=stereo")
    ∧ (Downmix.getPanFilter 8 "" ≠ Downmix.getPanFilter 6 ""
      ∧ Downmix.getPanFilter 7 "" ≠ Downmix.getPanFilter 6 ""
      ∧ Downmix.getPanFilter 7 "" ≠ Downmix.getPanFilter 8 ""
      ∧ Downmix.getPanFilter 4 "" ≠ Downmix.getPanFilter 6 ""
      ∧ Downmix.getPanFilter 3 "" = Proc.getPanFilter 3)
    ∧ (∀ c : Nat, 8 < c → Downmix.getPanFilter c "" = "aformat=channel_layouts=stereo")
    ∧ (Downmix.getPanFilter 5 "" = Downmix.getPanFilter 6 ""
      ∧ Downmix.getPanFilter 2 "" = Downmix.getPanFilter 6 ""
      ∧ Downmix.getPanFilter 1 "" = Downmix.getPanFilter 6 ""
      ∧ Downmix.getPanFilter 0 "" = Downmix.getPanFilter 6 "") := by
  have h51 : containsStr "" "5.1" = false := by decide
  have h71 : containsStr "" "7.1" = false := by decide
  have h61 : containsStr "" "6.1" = false := by decide
  have hq : containsStr "" "quad" = false := by decide
  have h40 : containsStr "" "4.0" = false := by decide
  have e : jsLower "" = "" := rfl
  refine ⟨⟨by decide, ?_⟩, ?_, ?_, by decide, ?_, by decide⟩
  · intro c h1 h2
    unfold Proc.getPanFilter
    rw [if_neg h2, if_pos h1, if_neg (by decide : ¬ (6 = 8)), if_pos (by decide : 6 ≥ 6)]
  · intro c h1 h2
    unfold Proc.getPanFilter
    rw [if_neg (by omega), if_neg (by omega), if_pos (by omega)]
  · intro c h1
    unfold Proc.getPanFilter
    rw [if_neg (by omega), if_neg (by omega), if_neg (by omega)]
  · intro c h1
    unfold Downmix.getPanFilter
    simp only [e, h51, h71, h61, hq, h40, Bool.false_eq_true, or_false]
    rw [if_neg (by omega), if_neg (by omega), if_neg (by omega), if_neg (by omega),
      if_neg (by omega), if_pos (by omega)]

/-- C7 (witness): the amended statement applied at concrete channel
counts 7, 4, 2 and 9. -/
theorem panFilter_amended_witness :
    Proc.getPanFilter 7 = Proc.getPanFilter 6
      ∧ Proc.getPanFilter 4 = "pan=stereo|FL=0.70*FL+0.70*FC|FR=0.70*FR+0.70*FC"
      ∧ Proc.getPanFilter 2 = "aformat=channel_layouts=stereo"
      ∧ Downmix.getPanFilter 9 "" = "aformat=channel_layouts=stereo" :=
  ⟨panFilter_amended.1.2 7 (by decide) (by decide),
    panFilter_amended.2.1 4 (by decide) (by decide),
    panFilter_amended.2.2.1 2 (by decide),
    panFilter_amended.2.2.2.2.1 9 (by decide)⟩

/-- C9 (counterexample): the loudness target `-99` is outside every value
the plugin offers, yet it is neither clamped nor rejected — the parsed
value is used verbatim in the filter chain handed to the transcoder. -/
theorem loudnorm_not_validated_cex :
    Downmix.loudnormTargetOf (some (-99)) = -99
      ∧ Downmix.loudnormOptions.contains (-99) = false
      ∧ Downmix.buildAudioFilter 6 "" true (Downmix.loudnormTargetOf (some (-99)))
        = "pan=stereo|FL=0.70*FL+0.70*FC+0.30*SL+0.30*BL+0.25*LFE|FR=0.70*FR+0.70*FC+0.30*SR+0.30*BR+0.25*LFE,loudnorm=I=-99:TP=-1.5:LRA=11,alimiter=limit=0.95" := by
  refine ⟨rfl, by decide, ?_⟩
  rfl

/-- C9 (amended): bitrate values outside `[64, 512]` (and unparsable ones)
are replaced by the default 192; invalid condition strings are rejected
with the skip outcome; but a parsable non-zero loudness target is used
verbatim with no range check (only `NaN` and `0` fall back to `-16`). -/
theorem policyValidation_amended :
    Downmix.validateBitrate none = 192
      ∧ (∀ v : Int, 64 ≤ v → v ≤ 512 → Downmix.validateBitrate (some v) = v)
      ∧ (∀ v : Int, v < 64 ∨ 512 < v → Downmix.validateBitrate (some v) = 192)
      ∧ (∀ (cond : String) (streams : List ProbeStream),
          cond ∉ Check.validConditions → Check.run cond streams = 2)
      ∧ (∀ t : Int, t ≠ 0 → Downmix.loudnormTargetOf (some t) = t) := by
  refine ⟨rfl, ?_, ?_, ?_, ?_⟩
  · intro v h1 h2
    show (if v < 64 ∨ v > 512 then (192 : Int) else v) = v
    rw [if_neg (by omega)]
  · intro v h
    show (if v < 64 ∨ v > 512 then (192 : Int) else v) = 192
    rw [if_pos (by omega)]
  · intro cond streams h
    unfold Check.run
    rw [if_pos (by simpa using h)]
  · intro t ht
    unfold Downmix.loudnormTargetOf jsOrInt
    split <;> simp_all

/-- C9 (witness): the amended statement applied at bitrate 256 (in range),
bitrate 600 (out of range), the condition string `"5.1"` and loudness
target `-23`. -/
theorem policyValidation_amended_witness :
    Downmix.validateBitrate (some 256) = 256
      ∧ Downmix.validateBitrate (some 600) = 192
      ∧ Check.run "5.1" [] = 2
      ∧ Downmix.loudnormTargetOf (some (-23)) = -23 :=
  ⟨policyValidation_amended.2.1 256 (by decide) (by decide),
    policyValidation_amended.2.2.1 600 (Or.inr (by decide)),
    policyValidation_amended.2.2.2.1 "5.1" [] (by decide),
    policyValidation_amended.2.2.2.2 (-23) (by decide)⟩

/-- C5 (counterexample): an execution path of the commit protocol on which
the file at the original path is neither left untouched, nor replaced by
the output, nor restored: the backup rename succeeds, the swap rename and
the copy fallback fail, the partial file is removed, and the restoring
rename fails — the original path ends up with no file at all. -/
theorem commit_critical_leaves_nothing_cex :
    (Commit.commitReplace
        { renameBackupOk := true, renameSwapOk := false, copyOk := false
          unlinkTempOk := true, unlinkPartialOk := true
          renameRestoreOk := false, unlinkBackupOk := true }
        Commit.initialFS).1.orig = none
      ∧ (Commit.commitReplace
          { renameBackupOk := true, renameSwapOk := false, copyOk := false
            unlinkTempOk := true, unlinkPartialOk := true
            renameRestoreOk := false, unlinkBackupOk := true }
          Commit.initialFS).2 = Commit.Outcome.criticalRestore := by
  exact ⟨rfl, rfl⟩

/-- C5 (amended): on every execution path that does not end in the
critical-restore failure, the original path holds either the untouched
original bytes (any failure before or during the swap that is rolled
back, or a failure before the backup) or the verified output (commit); the
critical-restore outcome occurs exactly when the backup rename succeeded
but both the swap (rename and copy fallback, or the temp unlink after a
copy) and the restoring rename failed. -/
theorem commitProtocol_amended :
    ∀ sc : Commit.Sched,
      ((Commit.commitReplace sc Commit.initialFS).2 = Commit.Outcome.committed →
        (Commit.commitReplace sc Commit.initialFS).1.orig = some Commit.Content.fresh)
      ∧ ((Commit.commitReplace sc Commit.initialFS).2 = Commit.Outcome.backupFailed →
        (Commit.commitReplace sc Commit.initialFS).1.orig = some Commit.Content.original)
      ∧ ((Commit.commitReplace sc Commit.initialFS).2 = Commit.Outcome.rolledBack →
        (Commit.commitReplace sc Commit.initialFS).1.orig = some Commit.Content.original)
      ∧ ((Commit.commitReplace sc Commit.initialFS).2 = Commit.Outcome.criticalRestore →
        sc.renameBackupOk = true ∧ sc.renameSwapOk = false ∧ sc.renameRestoreOk = false) := by
  intro sc
  obtain ⟨b1, b2, b3, b4, b5, b6, b7⟩ := sc
  cases b1 <;> cases b2 <;> cases b3 <;> cases b4 <;> cases b5 <;> cases b6 <;> cases b7 <;>
    exact ⟨fun h => by first | rfl | exact absurd h (by decide),
      fun h => by first | rfl | exact absurd h (by decide),
      fun h => by first | rfl | exact absurd h (by decide),
      fun h => by first | exact ⟨rfl, rfl, rfl⟩ | exact absurd h (by decide)⟩

/-- C5 (witness): the amended statement applied to the all-success
schedule (commit) and to a schedule whose swap fails but whose restore
succeeds (rollback). -/
theorem commitProtocol_amended_witness :
    (Commit.commitReplace
        { renameBackupOk := true, renameSwapOk := true, copyOk := true
          unlinkTempOk := true, unlinkPartialOk := true
          renameRestoreOk := true, unlinkBackupOk := true }
        Commit.initialFS).1.orig = some Commit.Content.fresh
      ∧ (Commit.commitReplace
          { renameBackupOk := true, renameSwapOk := false, copyOk := false
            unlinkTempOk := true, unlinkPartialOk := true
            renameRestoreOk := true, unlinkBackupOk := true }
          Commit.initialFS).1.orig = some Commit.Content.original :=
  ⟨(commitProtocol_amended _).1 rfl, (commitProtocol_amended _).2.2.1 rfl⟩

/-- Unfolding lemma for `Lock.acquireLock` when the timeout has elapsed. -/
theorem Lock.acquireLock_of_timeout {t e : Nat} (env : List Lock.Obs) (h : t ≤ e) :
    Lock.acquireLock t env e = ⟨false, e, 0⟩ := by
  conv_lhs => rw [Lock.acquireLock.eq_def]
  rw [if_pos h]

/-- Unfolding lemma for `Lock.acquireLock` while the timeout has not elapsed. -/
theorem Lock.acquireLock_run {t e : Nat} (env : List Lock.Obs) (h : ¬ t ≤ e) :
    Lock.acquireLock t env e =
      match env with
      | [] => ⟨false, e, 0⟩
      | Lock.Obs.free :: _ => ⟨true, e, 0⟩
      | Lock.Obs.held age :: rest =>
        if Lock.staleAgeMs < age then
          let r := Lock.acquireLock t rest e
          { r with staleUnlinks := r.staleUnlinks + 1 }
        else
          Lock.acquireLock t rest (e + Lock.sleepStepMs)
      | Lock.Obs.vanished :: rest => Lock.acquireLock t rest e
      | Lock.Obs.ioError :: _ => ⟨false, e, 0⟩ := by
  conv_lhs => rw [Lock.acquireLock.eq_def]
  rw [if_neg h]

/-- C6: lock acquisition behaves as claimed: a marker older than the
staleness threshold is unlinked and the attempt retried immediately (no
time passes); a fresh marker causes a bounded sleep before the retry; and
when every attempt within the acquisition timeout observes a fresh,
never-released marker, acquisition fails and the plugin exits through the
skip outcome with the target untouched. -/
theorem lockAcquisition_behaviour :
    (∀ (t : Nat) (env : List Lock.Obs) (e age : Nat), e < t → Lock.staleAgeMs < age →
      Lock.acquireLock t (Lock.Obs.held age :: env) e
        = { Lock.acquireLock t env e with
            staleUnlinks := (Lock.acquireLock t env e).staleUnlinks + 1 })
    ∧ (∀ (t : Nat) (env : List Lock.Obs) (e age : Nat), e < t → age ≤ Lock.staleAgeMs →
      Lock.acquireLock t (Lock.Obs.held age :: env) e
        = Lock.acquireLock t env (e + Lock.sleepStepMs))
    ∧ (∀ (t : Nat) (env : List Lock.Obs) (e : Nat),
        (∀ o ∈ env, ∃ age, o = Lock.Obs.held age ∧ age ≤ Lock.staleAgeMs) →
        t ≤ e + Lock.sleepStepMs * env.length →
        (Lock.acquireLock t env e).acquired = false)
    ∧ (∀ (α : Type) (target : α) (work : α → α × Nat) (t : Nat) (env : List Lock.Obs),
        (∀ o ∈ env, ∃ age, o = Lock.Obs.held age ∧ age ≤ Lock.staleAgeMs) →
        t ≤ Lock.sleepStepMs * env.length →
        Lock.runWithLock t env target work = (target, 2)) := by
  have hstale : ∀ (t : Nat) (env : List Lock.Obs) (e age : Nat),
      e < t → Lock.staleAgeMs < age →
      Lock.acquireLock t (Lock.Obs.held age :: env) e
        = { Lock.acquireLock t env e with
            staleUnlinks := (Lock.acquireLock t env e).staleUnlinks + 1 } := by
    intro t env e age h1 h2
    rw [Lock.acquireLock_run _ (by omega)]
    simp only [if_pos h2]
  have hfresh : ∀ (t : Nat) (env : List Lock.Obs) (e age : Nat),
      e < t → age ≤ Lock.staleAgeMs →
      Lock.acquireLock t (Lock.Obs.held age :: env) e
        = Lock.acquireLock t env (e + Lock.sleepStepMs) := by
    intro t env e age h1 h2
    rw [Lock.acquireLock_run _ (by omega)]
    simp only [if_neg (by omega : ¬ Lock.staleAgeMs < age)]
  have htimeout : ∀ (t : Nat) (env : List Lock.Obs) (e : Nat),
      (∀ o ∈ env, ∃ age, o = Lock.Obs.held age ∧ age ≤ Lock.staleAgeMs) →
      t ≤ e + Lock.sleepStepMs * env.length →
      (Lock.acquireLock t env e).acquired = false := by
    intro t env
    induction env with
    | nil =>
      intro e _ hb
      rw [Lock.acquireLock_of_timeout _ (by simpa using hb)]
    | cons o rest ih =>
      intro e hall hb
      obtain ⟨age, rfl, hage⟩ := hall o (List.mem_cons_self _ _)
      by_cases he : t ≤ e
      · rw [Lock.acquireLock_of_timeout _ he]
      · rw [hfresh t rest e age (by omega) hage]
        exact ih (e + Lock.sleepStepMs)
          (fun o ho => hall o (List.mem_cons_of_mem _ ho))
          (by simp only [List.length_cons, Lock.sleepStepMs] at hb ⊢; omega)
  refine ⟨hstale, hfresh, htimeout, ?_⟩
  intro α target work t env hall hb
  unfold Lock.runWithLock
  rw [htimeout t env 0 hall (by omega), if_neg (by simp)]

/-- C6 (witness): the behaviour applied at concrete traces — one stale
(2.5-hour-old) marker, one fresh (1-second-old) marker, and a 60-attempt
trace of a never-released fresh marker against the plugin's 30-second
timeout. -/
theorem lockAcquisition_behaviour_witness :
    Lock.acquireLock 30000 (Lock.Obs.held 9000000 :: []) 0
        = { Lock.acquireLock 30000 [] 0 with
            staleUnlinks := (Lock.acquireLock 30000 [] 0).staleUnlinks + 1 }
      ∧ Lock.acquireLock 30000 (Lock.Obs.held 1000 :: []) 0
        = Lock.acquireLock 30000 [] (0 + Lock.sleepStepMs)
      ∧ (Lock.acquireLock 30000 (List.replicate 60 (Lock.Obs.held 1000)) 0).acquired = false
      ∧ Lock.runWithLock 30000 (List.replicate 60 (Lock.Obs.held 1000)) (0 : Nat)
          (fun x => (x, 1)) = (0, 2) := by
  have hall : ∀ o ∈ List.replicate 60 (Lock.Obs.held 1000),
      ∃ age, o = Lock.Obs.held age ∧ age ≤ Lock.staleAgeMs := by
    intro o ho
    exact ⟨1000, List.eq_of_mem_replicate ho, by decide⟩
  exact ⟨lockAcquisition_behaviour.1 30000 [] 0 9000000 (by decide) (by decide),
    lockAcquisition_behaviour.2.1 30000 [] 0 1000 (by decide) (by decide),
    lockAcquisition_behaviour.2.2.1 30000 _ 0 hall (by decide),
    lockAcquisition_behaviour.2.2.2 Nat 0 (fun x => (x, 1)) 30000 _ hall (by decide)⟩

/-- Every character emitted by `collapseWs` is either the single space it
substitutes for a whitespace run or a non-whitespace character of the
input. -/
theorem Downmix.collapseWs_chars {c : Char} :
    ∀ {b : Bool} {l : List Char}, c ∈ Downmix.collapseWs b l →
      c = ' ' ∨ (c ∈ l ∧ Downmix.isJsSpace c = false) := by
  intro b l
  induction l generalizing b with
  | nil => intro h; simp [Downmix.collapseWs] at h
  | cons x rest ih =>
    intro h
    rw [Downmix.collapseWs] at h
    split at h
    · split at h
      · rcases ih h with h1 | ⟨h2, h3⟩
        · exact Or.inl h1
        · exact Or.inr ⟨List.mem_cons_of_mem _ h2, h3⟩
      · rcases List.mem_cons.mp h with rfl | h'
        · exact Or.inl rfl
        · rcases ih h' with h1 | ⟨h2, h3⟩
          · exact Or.inl h1
          · exact Or.inr ⟨List.mem_cons_of_mem _ h2, h3⟩
    · next hx =>
      rcases List.mem_cons.mp h with rfl | h'
      · exact Or.inr ⟨List.mem_cons_self _ _, by simpa using hx⟩
      · rcases ih h' with h1 | ⟨h2, h3⟩
        · exact Or.inl h1
        · exact Or.inr ⟨List.mem_cons_of_mem _ h2, h3⟩

/-- Helper: `trimWs` only removes characters. -/
theorem Downmix.trimWs_subset (l : List Char) : ∀ c ∈ Downmix.trimWs l, c ∈ l := by
  intro c hc
  unfold Downmix.trimWs at hc
  rw [List.mem_reverse] at hc
  have h1 := (List.dropWhile_sublist _).subset hc
  rw [List.mem_reverse] at h1
  exact (List.dropWhile_sublist _).subset h1

/-- A kept, non-whitespace character is in the allowed set. -/
theorem Downmix.keep_not_space_allowed {c : Char}
    (h1 : Downmix.keepChar c = true) (h2 : Downmix.isJsSpace c = false) :
    Downmix.allowedTitleChar c = true := by
  simp only [Downmix.keepChar, decide_eq_true_eq] at h1
  simp only [Downmix.allowedTitleChar, decide_eq_true_eq]
  rcases h1 with h | h | h | h | h | h
  · exact Or.inl h
  · rw [h2] at h; exact absurd h (by decide)
  all_goals tauto

/-- An allowed title character is none of the path-separator or
filter-syntax characters. -/
theorem Downmix.allowedTitleChar_excludes {c : Char}
    (h : Downmix.allowedTitleChar c = true) :
    c ≠ '/' ∧ c ≠ '\\' ∧ c ≠ '[' ∧ c ≠ ']' ∧ c ≠ ';' ∧ c ≠ ':' ∧ c ≠ ',' ∧ c ≠ '|' := by
  refine ⟨?_, ?_, ?_, ?_, ?_, ?_, ?_, ?_⟩ <;>
    · rintro rfl
      exact absurd h (by decide)

/-- Unfolding of the sanitizer at a string input. -/
theorem Downmix.sanitizeTrackTitle_some (t : String) :
    Downmix.sanitizeTrackTitle (some t) =
      if ((Downmix.trimWs (Downmix.collapseWs false
            (t.data.filter Downmix.keepChar))).take 64).isEmpty then "Stereo"
      else ⟨(Downmix.trimWs (Downmix.collapseWs false
            (t.data.filter Downmix.keepChar))).take 64⟩ := rfl

/-- C10: for every input (a non-string modelled by `none`), the track-title
sanitizer returns a non-empty string of length at most 64 whose characters
are all alphanumerics, spaces, hyphens, underscores or parentheses —
falling back to `"Stereo"` — so the title embedded in the transcoder's
metadata directive never contains path separators or filter-syntax
characters. -/
theorem sanitizeTrackTitle_safe :
    ∀ title : Option String,
      Downmix.sanitizeTrackTitle title ≠ ""
      ∧ (Downmix.sanitizeTrackTitle title).length ≤ 64
      ∧ (∀ c ∈ (Downmix.sanitizeTrackTitle title).data,
          Downmix.allowedTitleChar c = true
            ∧ c ≠ '/' ∧ c ≠ '\\' ∧ c ≠ '[' ∧ c ≠ ']'
            ∧ c ≠ ';' ∧ c ≠ ':' ∧ c ≠ ',' ∧ c ≠ '|') := by
  have hStereo : ("Stereo" : String) ≠ ""
      ∧ ("Stereo" : String).length ≤ 64
      ∧ ∀ c ∈ ("Stereo" : String).data, Downmix.allowedTitleChar c = true := by
    refine ⟨by decide, by decide, by decide⟩
  intro title
  match title with
  | none =>
    exact ⟨hStereo.1, hStereo.2.1, fun c hc =>
      ⟨hStereo.2.2 c hc, Downmix.allowedTitleChar_excludes (hStereo.2.2 c hc)⟩⟩
  | some t =>
    rw [Downmix.sanitizeTrackTitle_some]
    by_cases hemp :
        (Downmix.trimWs (Downmix.collapseWs false (t.data.filter Downmix.keepChar))).take 64
          |>.isEmpty
    · rw [if_pos hemp]
      exact ⟨hStereo.1, hStereo.2.1, fun c hc =>
        ⟨hStereo.2.2 c hc, Downmix.allowedTitleChar_excludes (hStereo.2.2 c hc)⟩⟩
    · rw [if_neg hemp]
      refine ⟨?_, ?_, ?_⟩
      · intro heq
        have hdata := congrArg String.data heq
        simp only at hdata
        rw [hdata] at hemp
        exact hemp rfl
      · show (List.take 64 _).length ≤ 64
        rw [List.length_take]
        exact min_le_left _ _
      · intro c hc
        have hc2 := List.take_subset _ _ hc
        have hc3 := Downmix.trimWs_subset _ c hc2
        have hallowed : Downmix.allowedTitleChar c = true := by
          rcases Downmix.collapseWs_chars hc3 with rfl | ⟨h4, h5⟩
          · decide
          · exact Downmix.keep_not_space_allowed (List.of_mem_filter h4) h5
        exact ⟨hallowed, Downmix.allowedTitleChar_excludes hallowed⟩

/-- C10 (witness): the sanitizer applied at the default title, a title of
hostile characters, and a non-string input. -/
theorem sanitizeTrackTitle_safe_witness :
    Downmix.sanitizeTrackTitle (some "Stereo (Night Mode)") = "Stereo (Night Mode)"
      ∧ Downmix.sanitizeTrackTitle (some "a/b\\c [x];,|:") = "abc x"
      ∧ Downmix.sanitizeTrackTitle none = "Stereo"
      ∧ Downmix.sanitizeTrackTitle (some "///") ≠ ""
      ∧ Downmix.allowedTitleChar 'a' = true := by
  refine ⟨by decide, by decide, rfl, (sanitizeTrackTitle_safe (some "///")).1, ?_⟩
  have h := (sanitizeTrackTitle_safe (some "a")).2.2 'a' (by decide)
  exact h.1

/-- Characterization of the Check selection loop from an arbitrary
accumulator state. -/
theorem Check.foldl_selStep (l : List ProbeStream) : ∀ st : Check.SelSt,
    l.foldl Check.selStep st =
      { firstIdx := match st.firstIdx with
          | some i => some i
          | none => if (Check.audioList l).isEmpty then none else some st.count
        mainIdx := match st.mainIdx with
          | some i => some i
          | none => Check.firstDefaultRelGo st.count l
        count := st.count + (Check.audioList l).length } := by
  induction l with
  | nil =>
    intro st
    obtain ⟨f, m, n⟩ := st
    cases f <;> cases m <;>
      simp [Check.audioList, Check.firstDefaultRelGo]
  | cons s rest ih =>
    intro st
    obtain ⟨f, m, n⟩ := st
    by_cases ha : s.isAudio
    · by_cases hd : s.isDefault <;>
        cases f <;> cases m <;>
        by_cases he : (Check.audioList rest).isEmpty <;>
        simp [List.foldl_cons, Check.selStep, ha, hd, he, ih,
          Check.audioList, Check.firstDefaultRelGo, Nat.add_assoc, Nat.add_comm 1]
    · have hax : Check.audioList (s :: rest) = Check.audioList rest := by
        simp [Check.audioList, ha]
      have hfx : Check.firstDefaultRelGo n (s :: rest) = Check.firstDefaultRelGo n rest := by
        simp [Check.firstDefaultRelGo, ha]
      simp [List.foldl_cons, Check.selStep, ha, ih, hax, hfx]

/-- The target selected by the Check plugin (and by the identical loop of
createStereoDownmix) is the first default-flagged audio stream, falling
back to the first audio stream. -/
theorem Check.targetRelIdx_eq (streams : List ProbeStream) :
    Check.targetRelIdx streams =
      match Check.firstDefaultRel streams with
      | some i => some i
      | none => if (Check.audioList streams).isEmpty then none else some 0 := by
  unfold Check.targetRelIdx Check.firstDefaultRel
  rw [Check.foldl_selStep]

/-- Positional coherence of the classifier: the `k`-th classified audio
stream carries `audioIndex = n + k` when classification starts at `n`. -/
theorem Proc.classifyGo_audioIndex :
    ∀ (streams : List ProbeStream) (n i : Nat) (a : Proc.AudioInfo),
      (Proc.classifyGo n streams)[i]? = some a → a.audioIndex = n + i := by
  intro streams
  induction streams with
  | nil => intro n i a h; simp [Proc.classifyGo] at h
  | cons s rest ih =>
    intro n i a h
    by_cases ha : s.isAudio
    · rw [Proc.classifyGo, if_pos ha] at h
      match i with
      | 0 =>
        simp only [List.getElem?_cons_zero, Option.some.injEq] at h
        subst h
        simp
      | i + 1 =>
        simp only [List.getElem?_cons_succ] at h
        have := ih (n + 1) i a h
        omega
    · rw [Proc.classifyGo, if_neg ha] at h
      exact ih n i a h

/-- Characterization of the Process Audio Complete main-track fold over a
list of audio records none of which has index 0: the accumulator ends as
the record of the last default-flagged entry, or stays put. -/
theorem Proc.foldl_mainStep (defLang : String) (l : List Proc.AudioInfo)
    (hl : ∀ a ∈ l, a.audioIndex ≠ 0) : ∀ m : Proc.MainSel,
    l.foldl (Proc.mainStep defLang) m =
      match (l.filter fun a => a.isDefault).getLast? with
      | some a => Proc.mkMain defLang a
      | none => m := by
  induction l using List.reverseRecOn with
  | nil => intro m; simp
  | append_singleton l' x ih =>
    intro m
    rw [List.foldl_append]
    have hx : x.audioIndex ≠ 0 := hl x (by simp)
    by_cases hd : x.isDefault
    · have : Proc.mainStep defLang (l'.foldl (Proc.mainStep defLang) m) x
          = Proc.mkMain defLang x := by
        simp [Proc.mainStep, Proc.mkMain, hd]
      rw [List.foldl_cons, List.foldl_nil, this]
      rw [List.filter_append]
      simp [hd]
    · have : ∀ y, Proc.mainStep defLang y x = y := by
        intro y; simp [Proc.mainStep, hx, hd]
      rw [List.foldl_cons, List.foldl_nil, this]
      rw [List.filter_append]
      simp only [List.filter_cons, hd]
      rw [ih (fun a hm => hl a (by simp [hm]))]
      simp

/-- C1 (counterexample): on a probe list whose two audio streams both
carry the default-disposition flag, the Process Audio Complete engine
selects audio index 1 — the last default-flagged stream, with the second
stream's codec and channel count — while the first default-flagged audio
stream is index 0.  The claim that the engine selects the first
default-flagged stream is false for this engine. -/
theorem mainTrackSelection_cex :
    (Proc.mainSel "eng" (Proc.classify
        [mkAudio "aac" 2 "eng" "" true, mkAudio "ac3" 6 "fre" "" true])).idx = 1
      ∧ (Proc.mainSel "eng" (Proc.classify
          [mkAudio "aac" 2 "eng" "" true, mkAudio "ac3" 6 "fre" "" true])).codec = "ac3"
      ∧ Check.firstDefaultRel
          [mkAudio "aac" 2 "eng" "" true, mkAudio "ac3" 6 "fre" "" true] = some 0 :=
  ⟨rfl, rfl, rfl⟩

/-- C1 (amended): the Check plugin (and the identical selection loop of
createStereoDownmix) selects the first default-flagged audio stream,
falling back to the first audio stream; the Process Audio Complete
engine instead selects the LAST default-flagged audio stream, falling
back to the first audio stream. -/
theorem mainTrackSelection_amended :
    ∀ (streams : List ProbeStream) (defLang : String),
      (Check.targetRelIdx streams =
        match Check.firstDefaultRel streams with
        | some i => some i
        | none => if (Check.audioList streams).isEmpty then none else some 0)
      ∧ (∀ a0 restA, Proc.classify streams = a0 :: restA →
          Proc.mainSel defLang (Proc.classify streams) =
            match ((Proc.classify streams).filter fun a => a.isDefault).getLast? with
            | some a => Proc.mkMain defLang a
            | none => Proc.mkMain defLang a0) := by
  intro streams defLang
  refine ⟨Check.targetRelIdx_eq streams, ?_⟩
  intro a0 restA hcl
  have hcl' : Proc.classifyGo 0 streams = a0 :: restA := hcl
  have h0 : a0.audioIndex = 0 := by
    have := Proc.classifyGo_audioIndex streams 0 0 a0 (by rw [hcl']; simp)
    simpa using this
  have hrest : ∀ a ∈ restA, a.audioIndex ≠ 0 := by
    intro a hm
    obtain ⟨i, hi, hgi⟩ := List.getElem_of_mem hm
    have hget : (Proc.classifyGo 0 streams)[i + 1]? = some a := by
      rw [hcl']
      simpa using List.getElem?_eq_getElem hi ▸ congrArg some hgi
    have := Proc.classifyGo_audioIndex streams 0 (i + 1) a hget
    omega
  unfold Proc.mainSel
  rw [hcl, List.foldl_cons]
  have hstep : Proc.mainStep defLang
      { idx := 0, channels := 0, lang := defLang, codec := "" } a0
        = Proc.mkMain defLang a0 := by
    simp [Proc.mainStep, Proc.mkMain, h0]
  rw [hstep, Proc.foldl_mainStep defLang restA hrest]
  by_cases hd : a0.isDefault
  · rw [List.filter_cons_of_pos (by simp [hd])]
    cases hrf : (restA.filter fun a => a.isDefault) with
    | nil => simp
    | cons y ys =>
      rw [List.getLast?_cons_cons]
  · rw [List.filter_cons_of_neg (by simp [hd])]

/-- C1 (witness): the amended statement applied to a concrete probe list
with two default-flagged audio streams. -/
theorem mainTrackSelection_amended_witness :
    Check.targetRelIdx [mkAudio "aac" 2 "eng" "" true, mkAudio "ac3" 6 "fre" "" true]
        = (match Check.firstDefaultRel
            [mkAudio "aac" 2 "eng" "" true, mkAudio "ac3" 6 "fre" "" true] with
          | some i => some i
          | none => if (Check.audioList
              [mkAudio "aac" 2 "eng" "" true, mkAudio "ac3" 6 "fre" "" true]).isEmpty
              then none else some 0)
      ∧ Proc.mainSel "eng" (Proc.classify
          [mkAudio "aac" 2 "eng" "" true, mkAudio "ac3" 6 "fre" "" true])
        = (match ((Proc.classify
              [mkAudio "aac" 2 "eng" "" true, mkAudio "ac3" 6 "fre" "" true]).filter
                fun a => a.isDefault).getLast? with
          | some a => Proc.mkMain "eng" a
          | none => Proc.mkMain "eng"
              { audioIndex := 0, codec := "aac", codecLower := "aac", channels := 2
                language := "eng", normLang := "eng", profile := "", title := ""
                isDefault := true }) :=
  ⟨(mainTrackSelection_amended _ "eng").1,
    (mainTrackSelection_amended _ "eng").2 _ _ rfl⟩

/-- The stereo-presence flag computed by the classification loop, restated
over the raw probe list. -/
theorem Proc.hasEnglishStereo_spec (streams : List ProbeStream) :
    Proc.hasEnglishStereo (Proc.classify streams)
      = streams.any fun s => s.isAudio ∧ s.channels = 2
          ∧ (Proc.normalizeLangCode s.language = "eng"
              ∨ s.language = "" ∨ s.language = "und") := by
  show Proc.hasEnglishStereo (Proc.classifyGo 0 streams) = _
  generalize 0 = n
  induction streams generalizing n with
  | nil => rfl
  | cons s rest ih =>
    by_cases ha : s.isAudio
    · rw [Proc.classifyGo, if_pos ha]
      simp only [Proc.hasEnglishStereo, List.any_cons, ha] at *
      rw [← ih (n + 1)]
      simp
    · rw [Proc.classifyGo, if_neg ha]
      simp only [List.any_cons, ha]
      rw [← ih n]
      simp

/-- C4 (counterexample): with configured default language `fre`, a
6-channel French main track and an existing French stereo track, the
engine still requires a downmix (its stereo check is hard-coded to
English/untagged), while the claimed predicate — no stereo track whose
language matches the configured default language — is false. -/
theorem needsDownmix_cex :
    Proc.needsStereo { defaultPolicy with defaultLanguage := "fre" }
        [mkAudio "ac3" 6 "fre" "" true, mkAudio "aac" 2 "fre" "" false] = true
      ∧ Proc.needsDownmixSpec { defaultPolicy with defaultLanguage := "fre" }
          [mkAudio "ac3" 6 "fre" "" true, mkAudio "aac" 2 "fre" "" false] = false := by
  exact ⟨by decide, by decide⟩

/-- C4 (amended): the downmix requirement holds exactly when the downmix
flag is enabled, the main track's channel count exceeds 2, and no audio
stream is stereo with a normalized language equal to the hard-coded
`"eng"` — not the configured default language — or an empty or `und`
language tag. -/
theorem needsDownmix_amended :
    ∀ (pol : Proc.Policy) (streams : List ProbeStream),
      Proc.needsStereo pol streams
        = (pol.createStereo
            ∧ (Proc.mainSel pol.defaultLanguage (Proc.classify streams)).channels > 2
            ∧ ¬ streams.any fun s => s.isAudio ∧ s.channels = 2
                ∧ (Proc.normalizeLangCode s.language = "eng"
                    ∨ s.language = "" ∨ s.language = "und")) := by
  intro pol streams
  unfold Proc.needsStereo
  rw [Proc.hasEnglishStereo_spec]
  simp


/-- Once a language key is in the seen set, no later metadata entry with
that key is marked "Original" (normalizeAudioTitles). -/
theorem Normalize.no_original_of_seen :
    ∀ (streams : List ProbeStream) (inh : String) (seen : List String) (idx : Nat),
      ∀ m ∈ Normalize.buildMetasGo inh seen idx streams,
        seen.contains m.langKey = true → m.isOriginal = false := by
  intro streams
  induction streams with
  | nil => intro inh seen idx m hm; simp [Normalize.buildMetasGo] at hm
  | cons s rest ih =>
    intro inh seen idx m hm hkey
    by_cases ha : s.isAudio
    · rw [Normalize.buildMetasGo, if_pos ha] at hm
      rcases List.mem_cons.mp hm with rfl | hm'
      · have hkey' : seen.contains (Normalize.streamKey inh s) = true := hkey
        show (if Normalize.detectDescriptor s.title ≠ "" then false
          else ! seen.contains (Normalize.streamKey inh s)) = false
        rw [hkey']
        split <;> rfl
      · refine ih inh _ (idx + 1) m hm' ?_
        rw [List.contains_cons, hkey]
        simp
    · rw [Normalize.buildMetasGo, if_neg ha] at hm
      exact ih inh seen idx m hm hkey

/-- At most one metadata entry per language key is marked "Original"
(normalizeAudioTitles). -/
theorem Normalize.at_most_one_original :
    ∀ (streams : List ProbeStream) (inh : String) (seen : List String) (idx : Nat)
      (key : String),
      ((Normalize.buildMetasGo inh seen idx streams).filter
        fun m => m.isOriginal ∧ m.langKey = key).length ≤ 1 := by
  intro streams
  induction streams with
  | nil => intro inh seen idx key; simp [Normalize.buildMetasGo]
  | cons s rest ih =>
    intro inh seen idx key
    by_cases ha : s.isAudio
    · rw [Normalize.buildMetasGo, if_pos ha, List.filter_cons]
      by_cases hpred : ((Normalize.metaOf inh seen idx s).isOriginal
          ∧ (Normalize.metaOf inh seen idx s).langKey = key)
      · rw [if_pos (by simpa using hpred)]
        have hkeyeq : Normalize.streamKey inh s = key := hpred.2
        have hzero : ((Normalize.buildMetasGo inh
            (Normalize.streamKey inh s :: seen) (idx + 1) rest).filter
            fun m => m.isOriginal ∧ m.langKey = key) = [] := by
          rw [List.filter_eq_nil_iff]
          intro m hm
          simp only [decide_eq_true_eq, not_and]
          intro horig hkey2
          have hcon : (Normalize.streamKey inh s :: seen).contains m.langKey = true := by
            rw [List.contains_cons, hkey2, hkeyeq]
            simp
          rw [Normalize.no_original_of_seen rest inh _ (idx + 1) m hm hcon] at horig
          exact absurd horig (by simp)
        rw [hzero]
        simp
      · rw [if_neg (by simpa using hpred)]
        exact ih inh _ (idx + 1) key
    · rw [Normalize.buildMetasGo, if_neg ha]
      exact ih inh seen idx key

/-- The "Original" flag computed by the title pass for one track. -/
theorem Proc.titleOf_snd (pol : Proc.Policy) (seen : List String) (t : Proc.OutTrack) :
    (Proc.titleOf pol seen t).2
      = decide ((¬ seen.contains (Proc.titleLangKey pol t) ∧ ¬ t.isNew) ∧ ¬ t.isNew) := rfl

/-- Once a language key is in the seen set, no later track with that key
is marked "Original" (Process Audio Complete title pass). -/
theorem Proc.no_original_mark_of_seen :
    ∀ (l : List Proc.OutTrack) (pol : Proc.Policy) (seen : List String),
      ∀ u ∈ Proc.assignTitles pol seen l,
        seen.contains (Proc.titleLangKey pol u) = true → u.isOriginalMark = false := by
  intro l
  induction l with
  | nil => intro pol seen u hu; simp [Proc.assignTitles] at hu
  | cons t rest ih =>
    intro pol seen u hu hkey
    rw [Proc.assignTitles] at hu
    rcases List.mem_cons.mp hu with rfl | hu'
    · have hkey' : seen.contains (Proc.titleLangKey pol t) = true := hkey
      show (Proc.titleOf pol seen t).2 = false
      rw [Proc.titleOf_snd, hkey']
      simp
    · refine ih pol _ u hu' ?_
      by_cases hnew : t.isNew
      · rw [if_pos hnew]; exact hkey
      · rw [if_neg hnew, List.contains_cons, hkey]
        simp

/-- At most one track per language key is marked "Original" (Process
Audio Complete title pass). -/
theorem Proc.at_most_one_original_mark :
    ∀ (l : List Proc.OutTrack) (pol : Proc.Policy) (seen : List String) (key : String),
      ((Proc.assignTitles pol seen l).filter
        fun u => u.isOriginalMark ∧ Proc.titleLangKey pol u = key).length ≤ 1 := by
  intro l
  induction l with
  | nil => intro pol seen key; simp [Proc.assignTitles]
  | cons t rest ih =>
    intro pol seen key
    rw [Proc.assignTitles, List.filter_cons]
    by_cases hpred : ((Proc.titleOf pol seen t).2 = true
        ∧ Proc.titleLangKey pol t = key)
    · rw [if_pos (by simp only [decide_eq_true_eq]; exact ⟨hpred.1, hpred.2⟩)]
      have hmark := hpred.1
      rw [Proc.titleOf_snd] at hmark
      simp only [decide_eq_true_eq] at hmark
      have hnew : ¬ t.isNew := hmark.2
      have hcon : ¬ seen.contains (Proc.titleLangKey pol t) = true := hmark.1.1
      have hkeyeq : Proc.titleLangKey pol t = key := hpred.2
      have hseen' : (if t.isNew then seen else Proc.titleLangKey pol t :: seen)
          = Proc.titleLangKey pol t :: seen := by rw [if_neg hnew]
      have hzero : ((Proc.assignTitles pol
          (if t.isNew then seen else Proc.titleLangKey pol t :: seen) rest).filter
          fun u => u.isOriginalMark ∧ Proc.titleLangKey pol u = key) = [] := by
        rw [List.filter_eq_nil_iff]
        intro u hu
        simp only [decide_eq_true_eq, not_and]
        intro horig hkey2
        rw [hseen'] at hu
        have hcon2 : (Proc.titleLangKey pol t :: seen).contains
            (Proc.titleLangKey pol u) = true := by
          rw [List.contains_cons, hkey2, hkeyeq]
          simp
        rw [Proc.no_original_mark_of_seen rest pol _ u hu hcon2] at horig
        exact absurd horig (by simp)
      rw [hzero]
      simp
    · rw [if_neg (by simp only [decide_eq_true_eq]; exact fun hc => hpred ⟨hc.1, hc.2⟩)]
      exact ih pol _ key

/-- A detected secondary-audio descriptor suppresses the "Original" mark
(normalizeAudioTitles). -/
theorem Normalize.descriptor_suppresses :
    ∀ (streams : List ProbeStream) (inh : String) (seen : List String) (idx : Nat),
      ∀ m ∈ Normalize.buildMetasGo inh seen idx streams,
        Normalize.detectDescriptor m.originalTitle ≠ "" → m.isOriginal = false := by
  intro streams
  induction streams with
  | nil => intro inh seen idx m hm; simp [Normalize.buildMetasGo] at hm
  | cons s rest ih =>
    intro inh seen idx m hm hdesc
    by_cases ha : s.isAudio
    · rw [Normalize.buildMetasGo, if_pos ha] at hm
      rcases List.mem_cons.mp hm with rfl | hm'
      · show (if Normalize.detectDescriptor s.title ≠ "" then false
          else ! seen.contains (Normalize.streamKey inh s)) = false
        rw [if_pos (show Normalize.detectDescriptor s.title ≠ "" from hdesc)]
      · exact ih inh _ (idx + 1) m hm' hdesc
    · rw [Normalize.buildMetasGo, if_neg ha] at hm
      exact ih inh seen idx m hm hdesc

/-- C2 (counterexample): in the Process Audio Complete engine a track
whose pre-existing title contains the secondary-audio marker
"commentary" (case-insensitively) still receives the "Original"
descriptor — the title pass never inspects pre-existing titles. -/
theorem singleOriginal_cex :
    ((Proc.plan { defaultPolicy with createDDP := false, createStereo := false }
        [mkAudio "ac3" 6 "fre" "Director Commentary" true]).map
        fun t => t.isOriginalMark) = [true]
      ∧ ((Proc.plan { defaultPolicy with createDDP := false, createStereo := false }
          [mkAudio "ac3" 6 "fre" "Director Commentary" true]).map
          fun t => t.title) = ["French Original - DD - 5.1"]
      ∧ containsStr (jsLower "Director Commentary") "commentary" = true
      ∧ Normalize.detectDescriptor "Director Commentary" = "Commentary" := by
  exact ⟨by decide, by decide, by decide, by decide⟩

/-- C2 (amended): in every final plan at most one track per normalized
language key carries the "Original" descriptor — in normalizeAudioTitles
and in the Process Audio Complete title pass alike; and in
normalizeAudioTitles a track whose pre-existing title carries a detected
secondary-audio marker never carries the descriptor.  The marker
exclusion does NOT hold in the Process Audio Complete engine, whose title
pass ignores pre-existing titles. -/
theorem singleOriginal_amended :
    (∀ (defLang : String) (streams : List ProbeStream) (key : String),
      ((Normalize.buildMetas defLang streams).filter
        fun m => m.isOriginal ∧ m.langKey = key).length ≤ 1)
    ∧ (∀ (defLang : String) (streams : List ProbeStream),
        ∀ m ∈ Normalize.buildMetas defLang streams,
          Normalize.detectDescriptor m.originalTitle ≠ "" → m.isOriginal = false)
    ∧ (∀ (pol : Proc.Policy) (streams : List ProbeStream) (key : String),
        ((Proc.plan pol streams).filter
          fun t => t.isOriginalMark ∧ Proc.titleLangKey pol t = key).length ≤ 1) := by
  refine ⟨?_, ?_, ?_⟩
  · intro defLang streams key
    exact Normalize.at_most_one_original streams _ [] 0 key
  · intro defLang streams m hm
    exact Normalize.descriptor_suppresses streams _ [] 0 m hm
  · intro pol streams key
    exact Proc.at_most_one_original_mark _ pol [] key

/-- C2 (witness): the invariant applied at a concrete plan and a concrete
commentary-titled stream. -/
theorem singleOriginal_amended_witness :
    ((Normalize.buildMetas "eng" [mkAudio "ac3" 2 "fre" "Commentary" true]).filter
        fun m => m.isOriginal ∧ m.langKey = "fre").length ≤ 1
      ∧ Normalize.Meta.isOriginal
          ⟨0, "fre", "fre", "Commentary", "Commentary", false⟩ = false
      ∧ ((Proc.plan defaultPolicy [mkAudio "aac" 2 "eng" "" true]).filter
          fun t => t.isOriginalMark ∧ Proc.titleLangKey defaultPolicy t = "eng").length ≤ 1 :=
  ⟨singleOriginal_amended.1 "eng" _ "fre",
    singleOriginal_amended.2.1 "eng" [mkAudio "ac3" 2 "fre" "Commentary" true]
      ⟨0, "fre", "fre", "Commentary", "Commentary", false⟩ (by decide) (by decide),
    singleOriginal_amended.2.2 defaultPolicy [mkAudio "aac" 2 "eng" "" true] "eng"⟩

/-- Helper: `keyLe` is reflexive on equal keys. -/
theorem Proc.keyLe_of_eq {p q : Nat × Nat} (h : p = q) : Proc.keyLe p q := by
  subst h
  exact Or.inr ⟨rfl, le_refl _⟩

/-- Inserting a track into a list keeps the equal-key subsequences: the
inserted track lands in front of every later equal-key track, and all
other equal-key subsequences are untouched. -/
theorem Proc.filter_orderedInsert (pol : Proc.Policy) (v : Nat × Nat) (a : Proc.OutTrack) :
    ∀ l : List Proc.OutTrack,
      ((List.orderedInsert (Proc.trackLe pol) a l).filter
        fun t => Proc.sortKey pol t = v)
      = if Proc.sortKey pol a = v
          then a :: l.filter (fun t => Proc.sortKey pol t = v)
          else l.filter (fun t => Proc.sortKey pol t = v) := by
  intro l
  induction l with
  | nil =>
    rw [List.orderedInsert_nil, List.filter_cons]
    by_cases hv : Proc.sortKey pol a = v
    · rw [if_pos (by simpa using hv), if_pos hv]
    · rw [if_neg (by simpa using hv), if_neg hv]
  | cons b l ih =>
    rw [List.orderedInsert]
    by_cases hle : Proc.trackLe pol a b
    · rw [if_pos hle, List.filter_cons]
      by_cases hv : Proc.sortKey pol a = v
      · rw [if_pos (by simpa using hv), if_pos hv]
      · rw [if_neg (by simpa using hv), if_neg hv]
    · rw [if_neg hle, List.filter_cons, List.filter_cons, ih]
      by_cases hv : Proc.sortKey pol a = v
      · have hb : ¬ (Proc.sortKey pol b = v) := by
          intro hbv
          exact hle (show Proc.trackLe pol a b from Proc.keyLe_of_eq (hv.trans hbv.symm))
        simp [hv, hb]
      · by_cases hb : Proc.sortKey pol b = v <;> simp [hv, hb]

/-- Insertion sort by the two-key comparator preserves each equal-key
subsequence (stability, filter form). -/
theorem Proc.filter_insertionSort (pol : Proc.Policy) (v : Nat × Nat) :
    ∀ l : List Proc.OutTrack,
      ((List.insertionSort (Proc.trackLe pol) l).filter
        fun t => Proc.sortKey pol t = v)
      = l.filter (fun t => Proc.sortKey pol t = v) := by
  intro l
  induction l with
  | nil => rfl
  | cons a l ih =>
    rw [List.insertionSort, Proc.filter_orderedInsert pol v a, List.filter_cons]
    by_cases hv : Proc.sortKey pol a = v
    · rw [if_pos hv, if_pos (by simpa using hv), ih]
    · rw [if_neg hv, if_neg (by simpa using hv), ih]

/-- Every DD+ or stereo entry of the initial output list is synthesized. -/
theorem Proc.mem_outputAudioInit_flags (pol : Proc.Policy) (streams : List ProbeStream)
    (t : Proc.OutTrack) (ht : t ∈ Proc.outputAudioInit pol streams)
    (hflag : t.isDDP = true ∨ t.isStereo = true) : t.isNew = true := by
  unfold Proc.outputAudioInit at ht
  rcases List.mem_append.mp ht with h | h
  · rcases List.mem_append.mp h with h' | h'
    · by_cases hc : Proc.needsDDP pol streams = true
      · rw [if_pos hc] at h'
        rcases List.mem_singleton.mp h' with rfl
        rfl
      · rw [if_neg hc] at h'
        simp at h'
    · obtain ⟨a, _, rfl⟩ := List.mem_map.mp h'
      rcases hflag with hf | hf <;> simp at hf
  · by_cases hc : Proc.needsStereo pol streams = true
    · rw [if_pos hc] at h
      rcases List.mem_singleton.mp h with rfl
      rfl
    · rw [if_neg hc] at h
      simp at h

/-- The non-synthesized part of the final ordered output list is exactly
the stably sorted existing-track list. -/
theorem Proc.filter_not_new_outputAudioSorted (pol : Proc.Policy)
    (streams : List ProbeStream) :
    ((Proc.outputAudioSorted pol streams).filter fun t => ¬ t.isNew)
      = Proc.sortedOriginals pol streams := by
  unfold Proc.outputAudioSorted
  rw [List.filter_append, List.filter_append]
  have h1 : (((Proc.outputAudioInit pol streams).filter fun t => t.isDDP).filter
      fun t => ¬ t.isNew) = [] := by
    rw [List.filter_eq_nil_iff]
    intro t ht
    obtain ⟨hm, hd⟩ := List.mem_filter.mp ht
    have := Proc.mem_outputAudioInit_flags pol streams t hm (Or.inl (by simpa using hd))
    simp [this]
  have h3 : (((Proc.outputAudioInit pol streams).filter fun t => t.isStereo).filter
      fun t => ¬ t.isNew) = [] := by
    rw [List.filter_eq_nil_iff]
    intro t ht
    obtain ⟨hm, hd⟩ := List.mem_filter.mp ht
    have := Proc.mem_outputAudioInit_flags pol streams t hm (Or.inr (by simpa using hd))
    simp [this]
  have h2 : ((Proc.sortedOriginals pol streams).filter fun t => ¬ t.isNew)
      = Proc.sortedOriginals pol streams := by
    rw [List.filter_eq_self]
    intro t ht
    unfold Proc.sortedOriginals at ht
    rw [List.mem_insertionSort] at ht
    exact (List.mem_filter.mp ht).2
  rw [h1, h2, h3]
  simp

/-- C8: the ordering of existing (copied) tracks is a stable two-key
sort — for every rank pair, the subsequence of existing tracks whose
(language-rank, codec-rank) key equals that pair is the same, in the same
order, in the final output plan as in the input-order track list; two
existing tracks of equal ranks therefore keep their input relative
order. -/
theorem stableSort_equalRanks :
    ∀ (pol : Proc.Policy) (streams : List ProbeStream) (v : Nat × Nat),
      ((Proc.outputAudioSorted pol streams).filter
        fun t => ¬ t.isNew ∧ Proc.sortKey pol t = v)
      = ((Proc.outputAudioInit pol streams).filter
        fun t => ¬ t.isNew ∧ Proc.sortKey pol t = v) := by
  intro pol streams v
  have hsplit : ∀ l : List Proc.OutTrack,
      (l.filter fun t => ¬ t.isNew ∧ Proc.sortKey pol t = v)
        = ((l.filter fun t => ¬ t.isNew).filter fun t => Proc.sortKey pol t = v) := by
    intro l
    rw [List.filter_filter]
    apply List.filter_congr
    intro t _
    simp [Bool.and_comm]
  rw [hsplit, hsplit, Proc.filter_not_new_outputAudioSorted]
  unfold Proc.sortedOriginals
  rw [Proc.filter_insertionSort]

/-- The title pass only changes the `title` and `isOriginalMark` fields:
any projection ignoring those two fields is preserved. -/
theorem Proc.assignTitles_map {γ : Type} (pol : Proc.Policy) (f : Proc.OutTrack → γ)
    (hf : ∀ (t : Proc.OutTrack) (a : String) (b : Bool),
      f { t with title := a, isOriginalMark := b } = f t) :
    ∀ (seen : List String) (l : List Proc.OutTrack),
      (Proc.assignTitles pol seen l).map f = l.map f := by
  intro seen l
  induction l generalizing seen with
  | nil => rfl
  | cons t rest ih =>
    rw [Proc.assignTitles]
    simp only [List.map_cons]
    rw [hf, ih]

/-- The computed title depends only on the track's language, origin flags,
original codec, profile and channel count. -/
theorem Proc.titleOf_congr (pol : Proc.Policy) (seen : List String)
    {t u : Proc.OutTrack}
    (h1 : t.language = u.language) (h2 : t.isNew = u.isNew)
    (h3 : t.isDDP = u.isDDP) (h4 : t.isStereo = u.isStereo)
    (h5 : t.originalCodec = u.originalCodec) (h6 : t.profile = u.profile)
    (h7 : t.channels = u.channels) :
    Proc.titleOf pol seen t = Proc.titleOf pol seen u := by
  unfold Proc.titleOf Proc.titleLangKey
  rw [h1, h2, h3, h4, h5, h6, h7]

/-- Two track lists agreeing on language, origin flags, original codec,
profile and channel count receive identical title sequences. -/
theorem Proc.assignTitles_title_congr (pol : Proc.Policy) :
    ∀ (l₁ l₂ : List Proc.OutTrack) (seen : List String),
      l₁.map (fun t => (t.language, t.isNew, t.isDDP, t.isStereo,
          t.originalCodec, t.profile, t.channels))
        = l₂.map (fun t => (t.language, t.isNew, t.isDDP, t.isStereo,
          t.originalCodec, t.profile, t.channels)) →
      (Proc.assignTitles pol seen l₁).map (fun t => t.title)
        = (Proc.assignTitles pol seen l₂).map (fun t => t.title) := by
  intro l₁
  induction l₁ with
  | nil =>
    intro l₂ seen h
    cases l₂ with
    | nil => rfl
    | cons u rest₂ => simp at h
  | cons t rest ih =>
    intro l₂ seen h
    cases l₂ with
    | nil => simp at h
    | cons u rest₂ =>
      simp only [List.map_cons, List.cons.injEq, Prod.mk.injEq] at h
      obtain ⟨⟨h1, h2, h3, h4, h5, h6, h7⟩, ht⟩ := h
      rw [Proc.assignTitles, Proc.assignTitles]
      simp only [List.map_cons]
      have hk : Proc.titleLangKey pol t = Proc.titleLangKey pol u := by
        unfold Proc.titleLangKey
        rw [h1]
      congr 1
      · show (Proc.titleOf pol seen t).1 = (Proc.titleOf pol seen u).1
        rw [Proc.titleOf_congr pol seen h1 h2 h3 h4 h5 h6 h7]
      · rw [h2, hk]
        exact ih rest₂ _ ht

/-- Shape of every entry produced by `copyTracks`. -/
theorem Proc.mem_copyTracks {main : Proc.MainSel} {audios : List Proc.AudioInfo}
    {t : Proc.OutTrack} (ht : t ∈ Proc.copyTracks main audios) :
    t.codec = "copy" ∧ t.title = "" ∧ t.isOriginalMark = false ∧ t.isNew = false
      ∧ t.isDDP = false ∧ t.isStereo = false ∧ t.bitrate = none := by
  obtain ⟨a, _, rfl⟩ := List.mem_map.mp ht
  exact ⟨rfl, rfl, rfl, rfl, rfl, rfl, rfl⟩

/-- When the selected main track has a non-empty language, every copy
entry has a non-empty language. -/
theorem Proc.mem_copyTracks_language_ne {main : Proc.MainSel}
    {audios : List Proc.AudioInfo} {t : Proc.OutTrack}
    (hm : main.lang ≠ "") (ht : t ∈ Proc.copyTracks main audios) :
    t.language ≠ "" := by
  obtain ⟨a, _, rfl⟩ := List.mem_map.mp ht
  show (if a.language = "" then main.lang else a.language) ≠ ""
  by_cases h : a.language = ""
  · rw [if_pos h]; exact hm
  · rw [if_neg h]; exact h

/-- The main-track fold never produces an empty language when the default
language is non-empty. -/
theorem Proc.mainSel_lang_ne (defLang : String) (hd : defLang ≠ "")
    (audios : List Proc.AudioInfo) : (Proc.mainSel defLang audios).lang ≠ "" := by
  unfold Proc.mainSel
  have hstep : ∀ (l : List Proc.AudioInfo) (m : Proc.MainSel), m.lang ≠ "" →
      (l.foldl (Proc.mainStep defLang) m).lang ≠ "" := by
    intro l
    induction l with
    | nil => intro m hm; exact hm
    | cons a rest ih =>
      intro m hm
      rw [List.foldl_cons]
      refine ih _ ?_
      unfold Proc.mainStep
      split
      · show (if a.normLang = "" then defLang else a.normLang) ≠ ""
        by_cases h : a.normLang = ""
        · rw [if_pos h]; exact hd
        · rw [if_neg h]; exact h
      · exact hm
  exact hstep audios _ hd

/-- With no synthesis required, the initial output list is exactly the
copy entries. -/
theorem Proc.outputAudioInit_no_synth (pol : Proc.Policy) (streams : List ProbeStream)
    (h1 : Proc.needsDDP pol streams = false) (h2 : Proc.needsStereo pol streams = false) :
    Proc.outputAudioInit pol streams
      = Proc.copyTracks (Proc.mainSel pol.defaultLanguage (Proc.classify streams))
          (Proc.classify streams) := by
  simp [Proc.outputAudioInit, h1, h2]

/-- With no synthesis required, the final ordered output list is the
stable sort of the copy entries. -/
theorem Proc.outputAudioSorted_no_synth (pol : Proc.Policy) (streams : List ProbeStream)
    (h1 : Proc.needsDDP pol streams = false) (h2 : Proc.needsStereo pol streams = false) :
    Proc.outputAudioSorted pol streams
      = List.insertionSort (Proc.trackLe pol)
          (Proc.copyTracks (Proc.mainSel pol.defaultLanguage (Proc.classify streams))
            (Proc.classify streams)) := by
  unfold Proc.outputAudioSorted Proc.sortedOriginals
  rw [Proc.outputAudioInit_no_synth pol streams h1 h2]
  have hddp : ((Proc.copyTracks (Proc.mainSel pol.defaultLanguage (Proc.classify streams))
      (Proc.classify streams)).filter fun t => t.isDDP) = [] := by
    rw [List.filter_eq_nil_iff]
    intro t ht
    simp [(Proc.mem_copyTracks ht).2.2.2.2.1]
  have hst : ((Proc.copyTracks (Proc.mainSel pol.defaultLanguage (Proc.classify streams))
      (Proc.classify streams)).filter fun t => t.isStereo) = [] := by
    rw [List.filter_eq_nil_iff]
    intro t ht
    simp [(Proc.mem_copyTracks ht).2.2.2.2.2.1]
  have hnn : ((Proc.copyTracks (Proc.mainSel pol.defaultLanguage (Proc.classify streams))
      (Proc.classify streams)).filter fun t => ¬ t.isNew)
      = Proc.copyTracks (Proc.mainSel pol.defaultLanguage (Proc.classify streams))
          (Proc.classify streams) := by
    rw [List.filter_eq_self]
    intro t ht
    simp [(Proc.mem_copyTracks ht).2.2.2.1]
  rw [hddp, hst, hnn]
  simp

/-- The two-key comparator order is total. -/
theorem Proc.keyLe_total (p q : Nat × Nat) : Proc.keyLe p q ∨ Proc.keyLe q p := by
  unfold Proc.keyLe
  omega

/-- The two-key comparator order is transitive. -/
theorem Proc.keyLe_trans {p q r : Nat × Nat}
    (h1 : Proc.keyLe p q) (h2 : Proc.keyLe q r) : Proc.keyLe p r := by
  unfold Proc.keyLe at *
  omega

/-- A list whose key sequence equals the key sequence of an
insertion-sorted list is itself already sorted, so sorting it is the
identity. -/
theorem Proc.insertionSort_eq_self_of_keys (pol : Proc.Policy)
    {l₁ l₂ : List Proc.OutTrack}
    (hkeys : l₂.map (Proc.sortKey pol)
      = (List.insertionSort (Proc.trackLe pol) l₁).map (Proc.sortKey pol)) :
    List.insertionSort (Proc.trackLe pol) l₂ = l₂ := by
  haveI : IsTotal Proc.OutTrack (Proc.trackLe pol) :=
    ⟨fun a b => Proc.keyLe_total _ _⟩
  haveI : IsTrans Proc.OutTrack (Proc.trackLe pol) :=
    ⟨fun _ _ _ h1 h2 => Proc.keyLe_trans h1 h2⟩
  apply List.Sorted.insertionSort_eq
  have hs : List.Sorted (Proc.trackLe pol) (List.insertionSort (Proc.trackLe pol) l₁) :=
    List.sorted_insertionSort _ _
  have hp : ((List.insertionSort (Proc.trackLe pol) l₁).map
      (Proc.sortKey pol)).Pairwise Proc.keyLe := by
    rw [List.pairwise_map]
    exact hs
  rw [← hkeys, List.pairwise_map] at hp
  exact hp

/-- A track list whose sources enumerate `k, k+1, ...` passes the reorder
check. -/
theorem Proc.enum_sources_in_order :
    ∀ (l : List Proc.OutTrack) (k : Nat),
      l.map (fun t => t.source) = (List.range' k l.length).map some →
      ((l.enumFrom k).any fun p => p.2.source ≠ some p.1) = false := by
  intro l
  induction l with
  | nil => intro k _; rfl
  | cons t rest ih =>
    intro k h
    simp only [List.length_cons, List.range'_succ, List.map_cons, List.cons.injEq] at h
    obtain ⟨hhead, htail⟩ := h
    show ((k, t) :: rest.enumFrom (k + 1)).any _ = false
    rw [List.any_cons]
    simp only [hhead]
    rw [ih (k + 1) htail]
    simp

/-- A titled list whose sources enumerate `k, k+1, ...` and whose titles
coincide with the probed titles at those indices passes the title check. -/
theorem Proc.titleFix_false (audios : List Proc.AudioInfo) :
    ∀ (titled : List Proc.OutTrack) (k : Nat),
      titled.map (fun t => t.source) = (List.range' k titled.length).map some →
      (∀ j : Nat, (audios[k + j]?).map (fun a => a.title)
        = (titled[j]?).map (fun t => t.title)) →
      Proc.needsTitleFix audios titled = false := by
  intro titled
  induction titled with
  | nil => intro k _ _; rfl
  | cons u rest ih =>
    intro k hsrc htitle
    simp only [List.length_cons, List.range'_succ, List.map_cons, List.cons.injEq] at hsrc
    obtain ⟨hhead, htail⟩ := hsrc
    unfold Proc.needsTitleFix
    rw [List.any_cons]
    have h0 := htitle 0
    simp only [Nat.add_zero, List.getElem?_cons_zero, Option.map_some'] at h0
    have hpred : (match u.source with
        | some srcIdx =>
          match audios[srcIdx]? with
          | some orig => decide (orig.title ≠ u.title)
          | none => false
        | none => false) = false := by
      rw [hhead]
      show (match audios[k]? with
        | some orig => decide (orig.title ≠ u.title)
        | none => false) = false
      match ha : audios[k]? with
      | none => simp [ha] at h0
      | some orig =>
        rw [ha] at h0
        simp only [Option.map_some', Option.some.injEq] at h0
        simp [h0]
    rw [hpred]
    have htail2 : ∀ j : Nat, (audios[(k + 1) + j]?).map (fun a => a.title)
        = (rest[j]?).map (fun t => t.title) := by
      intro j
      have := htitle (j + 1)
      rw [show k + (j + 1) = (k + 1) + j by omega] at this
      simpa using this
    rw [show Proc.needsTitleFix audios rest
      = (rest.any fun ot => match ot.source with
        | some srcIdx =>
          match audios[srcIdx]? with
          | some orig => decide (orig.title ≠ ot.title)
          | none => false
        | none => false) from rfl] at ih
    rw [ih (k + 1) htail htail2]
    simp

/-- Applying the compiled plan of a reorder/title-fix-only pass and
re-running the classifier and copy-track builder reproduces the sorted
track list, re-sourced positionally: the second pass's copy entries are
the first pass's sorted entries with `source` renumbered `k, k+1, ...`. -/
theorem Proc.pass2_copyTracks (pol : Proc.Policy) :
    ∀ (l : List Proc.OutTrack) (seen : List String) (k : Nat) (M : Proc.MainSel),
      (∀ t ∈ l, t.codec = "copy" ∧ t.title = "" ∧ t.isOriginalMark = false
        ∧ t.isNew = false ∧ t.isDDP = false ∧ t.isStereo = false
        ∧ t.bitrate = none ∧ t.language ≠ "") →
      Proc.copyTracks M (Proc.classifyGo k
        (((Proc.assignTitles pol seen l).enumFrom k).map fun p =>
          ({ isAudio := true
             codecName := if p.2.codec = "copy" then p.2.originalCodec else p.2.codec
             channels := p.2.channels
             language := if p.2.language = "" then pol.defaultLanguage else p.2.language
             title := p.2.title
             profile := p.2.profile
             isDefault := p.1 = 0 } : ProbeStream)))
      = (l.enumFrom k).map fun p => { p.2 with source := some p.1 } := by
  intro l
  induction l with
  | nil => intro seen k M _; rfl
  | cons t rest ih =>
    intro seen k M h
    have hh := h t (List.mem_cons_self _ _)
    have hrest := fun u hu => h u (List.mem_cons_of_mem _ hu)
    obtain ⟨src, cod, bit, lang, ch, prof, oc, inew, iddp, ist, ttl, mark⟩ := t
    obtain ⟨hc, htt, hmk, hnn, hnd, hns, hb, hlng⟩ := hh
    simp only at hc htt hmk hnn hnd hns hb hlng
    subst hc htt hmk hnn hnd hns hb
    rw [Proc.assignTitles]
    simp only [List.enumFrom, List.map_cons, Proc.classifyGo, Proc.copyTracks]
    simp only [List.map_cons, hlng, if_true, if_false, Bool.false_eq_true]
    congr 1
    exact ih _ (k + 1) M hrest

/-- Classifying the streams written by the plan preserves the planned
titles positionally. -/
theorem Proc.pass2_titles (pol : Proc.Policy) :
    ∀ (l : List Proc.OutTrack) (k : Nat),
      (Proc.classifyGo k ((l.enumFrom k).map fun p =>
        ({ isAudio := true
           codecName := if p.2.codec = "copy" then p.2.originalCodec else p.2.codec
           channels := p.2.channels
           language := if p.2.language = "" then pol.defaultLanguage else p.2.language
           title := p.2.title
           profile := p.2.profile
           isDefault := p.1 = 0 } : ProbeStream))).map (fun a => a.title)
      = l.map fun t => t.title := by
  intro l
  induction l with
  | nil => intro k; rfl
  | cons t rest ih =>
    intro k
    simp only [List.enumFrom, List.map_cons, Proc.classifyGo, if_true]
    congr 1
    exact ih (k + 1)

/-- Every titled track shares its `isNew` flag with some input track. -/
theorem Proc.assignTitles_isNew :
    ∀ (l : List Proc.OutTrack) (pol : Proc.Policy) (seen : List String)
      (u : Proc.OutTrack), u ∈ Proc.assignTitles pol seen l →
      ∃ t ∈ l, u.isNew = t.isNew := by
  intro l
  induction l with
  | nil => intro pol seen u hu; simp [Proc.assignTitles] at hu
  | cons t rest ih =>
    intro pol seen u hu
    rw [Proc.assignTitles] at hu
    rcases List.mem_cons.mp hu with rfl | hu'
    · exact ⟨t, List.mem_cons_self _ _, rfl⟩
    · obtain ⟨t', ht', he⟩ := ih pol _ u hu'
      exact ⟨t', List.mem_cons_of_mem _ ht', he⟩

/-- C3 (amended): when the first pass performs no synthesis (no DD+, no
stereo downmix — a reorder/title-fix-only pass) and the second pass's own
synthesis predicates are also false on the produced state, the second
pass detects nothing to do: `noOpRequired` holds.  (The configured
default language is non-empty, as guaranteed by the plugin's input
parsing `args.inputs.defaultLanguage || 'eng'`.)  Without these
conditions a second pass is NOT a no-op: synthesis adds tracks whose
recomputed titles gain the "Original" descriptor, and re-sorting can
promote a DTS track into the main slot. -/
theorem secondPass_noOp (pol : Proc.Policy) (streams : List ProbeStream)
    (hdl : pol.defaultLanguage ≠ "")
    (h1 : Proc.needsDDP pol streams = false)
    (h2 : Proc.needsStereo pol streams = false)
    (h3 : Proc.needsDDP pol (Proc.applyPlan pol streams) = false)
    (h4 : Proc.needsStereo pol (Proc.applyPlan pol streams) = false) :
    Proc.noOpRequired pol (Proc.applyPlan pol streams) = true := by
  have hS : Proc.outputAudioSorted pol streams
      = List.insertionSort (Proc.trackLe pol)
          (Proc.copyTracks (Proc.mainSel pol.defaultLanguage (Proc.classify streams))
            (Proc.classify streams)) :=
    Proc.outputAudioSorted_no_synth pol streams h1 h2
  -- the sorted first-pass list and its shape
  have hshapeS : ∀ t ∈ Proc.outputAudioSorted pol streams,
      t.codec = "copy" ∧ t.title = "" ∧ t.isOriginalMark = false
        ∧ t.isNew = false ∧ t.isDDP = false ∧ t.isStereo = false
        ∧ t.bitrate = none ∧ t.language ≠ "" := by
    intro t ht
    rw [hS, List.mem_insertionSort] at ht
    have hshape := Proc.mem_copyTracks ht
    have hlng := Proc.mem_copyTracks_language_ne
      (Proc.mainSel_lang_ne pol.defaultLanguage hdl (Proc.classify streams)) ht
    exact ⟨hshape.1, hshape.2.1, hshape.2.2.1, hshape.2.2.2.1, hshape.2.2.2.2.1,
      hshape.2.2.2.2.2.1, hshape.2.2.2.2.2.2, hlng⟩
  have happly : Proc.applyPlan pol streams
      = ((Proc.assignTitles pol [] (Proc.outputAudioSorted pol streams)).enumFrom 0).map
          (fun p =>
            ({ isAudio := true
               codecName := if p.2.codec = "copy" then p.2.originalCodec else p.2.codec
               channels := p.2.channels
               language := if p.2.language = "" then pol.defaultLanguage else p.2.language
               title := p.2.title
               profile := p.2.profile
               isDefault := p.1 = 0 } : ProbeStream)) := rfl
  have haudios : Proc.classify (Proc.applyPlan pol streams)
      = Proc.classifyGo 0
          (((Proc.assignTitles pol [] (Proc.outputAudioSorted pol streams)).enumFrom 0).map
            (fun p =>
              ({ isAudio := true
                 codecName := if p.2.codec = "copy" then p.2.originalCodec else p.2.codec
                 channels := p.2.channels
                 language := if p.2.language = "" then pol.defaultLanguage else p.2.language
                 title := p.2.title
                 profile := p.2.profile
                 isDefault := p.1 = 0 } : ProbeStream))) := by
    rw [← happly]
    rfl
  -- second-pass copy entries: the sorted list, re-sourced positionally
  have hcopies₂ : Proc.copyTracks
      (Proc.mainSel pol.defaultLanguage (Proc.classify (Proc.applyPlan pol streams)))
      (Proc.classify (Proc.applyPlan pol streams))
      = ((Proc.outputAudioSorted pol streams).enumFrom 0).map
          (fun p => { p.2 with source := some p.1 }) := by
    rw [haudios]
    exact Proc.pass2_copyTracks pol (Proc.outputAudioSorted pol streams) [] 0 _ hshapeS
  -- key sequences agree, so the second sort is the identity
  have hkeys : (Proc.copyTracks
      (Proc.mainSel pol.defaultLanguage (Proc.classify (Proc.applyPlan pol streams)))
      (Proc.classify (Proc.applyPlan pol streams))).map (Proc.sortKey pol)
      = (Proc.outputAudioSorted pol streams).map (Proc.sortKey pol) := by
    rw [hcopies₂, List.map_map]
    have : ((Proc.outputAudioSorted pol streams).enumFrom 0).map
        (Proc.sortKey pol ∘ fun p => { p.2 with source := some p.1 })
        = ((Proc.outputAudioSorted pol streams).enumFrom 0).map
          (fun p => Proc.sortKey pol p.2) := by
      apply List.map_congr_left
      intro p _
      rfl
    rw [this, show (fun p : Nat × Proc.OutTrack => Proc.sortKey pol p.2)
      = Proc.sortKey pol ∘ Prod.snd from rfl, ← List.map_map, List.enumFrom_map_snd]
  have hsort₂ : List.insertionSort (Proc.trackLe pol)
      (Proc.copyTracks
        (Proc.mainSel pol.defaultLanguage (Proc.classify (Proc.applyPlan pol streams)))
        (Proc.classify (Proc.applyPlan pol streams)))
      = Proc.copyTracks
          (Proc.mainSel pol.defaultLanguage (Proc.classify (Proc.applyPlan pol streams)))
          (Proc.classify (Proc.applyPlan pol streams)) := by
    apply Proc.insertionSort_eq_self_of_keys pol
    rw [hkeys, hS]
  have hsorted₂ : Proc.outputAudioSorted pol (Proc.applyPlan pol streams)
      = Proc.copyTracks
          (Proc.mainSel pol.defaultLanguage (Proc.classify (Proc.applyPlan pol streams)))
          (Proc.classify (Proc.applyPlan pol streams)) := by
    rw [Proc.outputAudioSorted_no_synth pol (Proc.applyPlan pol streams) h3 h4, hsort₂]
  have hTS₂ : Proc.plan pol (Proc.applyPlan pol streams)
      = Proc.assignTitles pol []
          (Proc.copyTracks
            (Proc.mainSel pol.defaultLanguage (Proc.classify (Proc.applyPlan pol streams)))
            (Proc.classify (Proc.applyPlan pol streams))) := by
    unfold Proc.plan
    rw [hsorted₂]
  have hTO : Proc.titledOriginals pol (Proc.applyPlan pol streams)
      = Proc.assignTitles pol []
          (Proc.copyTracks
            (Proc.mainSel pol.defaultLanguage (Proc.classify (Proc.applyPlan pol streams)))
            (Proc.classify (Proc.applyPlan pol streams))) := by
    unfold Proc.titledOriginals
    rw [hTS₂, List.filter_eq_self]
    intro u hu
    obtain ⟨c, hc, hce⟩ := Proc.assignTitles_isNew _ pol [] u hu
    have : u.isNew = false := by rw [hce]; exact (Proc.mem_copyTracks hc).2.2.2.1
    simp [this]
  have hsrc0 : (Proc.assignTitles pol []
      (Proc.copyTracks
        (Proc.mainSel pol.defaultLanguage (Proc.classify (Proc.applyPlan pol streams)))
        (Proc.classify (Proc.applyPlan pol streams)))).map (fun t => t.source)
      = (List.range' 0 (Proc.outputAudioSorted pol streams).length).map some := by
    rw [Proc.assignTitles_map pol (fun t : Proc.OutTrack => t.source) (fun t a b => rfl),
      hcopies₂, List.map_map]
    have : ((Proc.outputAudioSorted pol streams).enumFrom 0).map
        ((fun t : Proc.OutTrack => t.source) ∘ fun p => { p.2 with source := some p.1 })
        = ((Proc.outputAudioSorted pol streams).enumFrom 0).map
          (fun p => some p.1) := by
      apply List.map_congr_left
      intro p _
      rfl
    rw [this, show (fun p : Nat × Proc.OutTrack => some p.1)
      = some ∘ Prod.fst from rfl, ← List.map_map, List.enumFrom_map_fst]
  have hlen : (Proc.assignTitles pol []
      (Proc.copyTracks
        (Proc.mainSel pol.defaultLanguage (Proc.classify (Proc.applyPlan pol streams)))
        (Proc.classify (Proc.applyPlan pol streams)))).length
      = (Proc.outputAudioSorted pol streams).length := by
    have := congrArg List.length hsrc0
    simpa using this
  have hsrc : (Proc.assignTitles pol []
      (Proc.copyTracks
        (Proc.mainSel pol.defaultLanguage (Proc.classify (Proc.applyPlan pol streams)))
        (Proc.classify (Proc.applyPlan pol streams)))).map (fun t => t.source)
      = (List.range' 0 (Proc.assignTitles pol []
          (Proc.copyTracks
            (Proc.mainSel pol.defaultLanguage (Proc.classify (Proc.applyPlan pol streams)))
            (Proc.classify (Proc.applyPlan pol streams)))).length).map some := by
    rw [hsrc0, hlen]
  have hreorder : Proc.needsReorder (Proc.assignTitles pol []
      (Proc.copyTracks
        (Proc.mainSel pol.defaultLanguage (Proc.classify (Proc.applyPlan pol streams)))
        (Proc.classify (Proc.applyPlan pol streams)))) = false :=
    Proc.enum_sources_in_order _ 0 hsrc
  have hsig : (Proc.copyTracks
      (Proc.mainSel pol.defaultLanguage (Proc.classify (Proc.applyPlan pol streams)))
      (Proc.classify (Proc.applyPlan pol streams))).map
        (fun t => (t.language, t.isNew, t.isDDP, t.isStereo,
          t.originalCodec, t.profile, t.channels))
      = (Proc.outputAudioSorted pol streams).map
        (fun t => (t.language, t.isNew, t.isDDP, t.isStereo,
          t.originalCodec, t.profile, t.channels)) := by
    rw [hcopies₂, List.map_map]
    have : ((Proc.outputAudioSorted pol streams).enumFrom 0).map
        ((fun t : Proc.OutTrack => (t.language, t.isNew, t.isDDP, t.isStereo,
          t.originalCodec, t.profile, t.channels)) ∘ fun p => { p.2 with source := some p.1 })
        = ((Proc.outputAudioSorted pol streams).enumFrom 0).map
          (fun p => (p.2.language, p.2.isNew, p.2.isDDP, p.2.isStereo,
            p.2.originalCodec, p.2.profile, p.2.channels)) := by
      apply List.map_congr_left
      intro p _
      rfl
    rw [this, show (fun p : Nat × Proc.OutTrack => (p.2.language, p.2.isNew, p.2.isDDP,
        p.2.isStereo, p.2.originalCodec, p.2.profile, p.2.channels))
      = (fun t : Proc.OutTrack => (t.language, t.isNew, t.isDDP, t.isStereo,
          t.originalCodec, t.profile, t.channels)) ∘ Prod.snd from rfl,
      ← List.map_map, List.enumFrom_map_snd]
  have htitle2 : (Proc.assignTitles pol []
      (Proc.copyTracks
        (Proc.mainSel pol.defaultLanguage (Proc.classify (Proc.applyPlan pol streams)))
        (Proc.classify (Proc.applyPlan pol streams)))).map (fun t => t.title)
      = (Proc.assignTitles pol [] (Proc.outputAudioSorted pol streams)).map
          (fun t => t.title) :=
    Proc.assignTitles_title_congr pol _ _ [] hsig
  have haudtitle : (Proc.classify (Proc.applyPlan pol streams)).map (fun a => a.title)
      = (Proc.assignTitles pol [] (Proc.outputAudioSorted pol streams)).map
          (fun t => t.title) := by
    rw [haudios]
    exact Proc.pass2_titles pol (Proc.assignTitles pol [] (Proc.outputAudioSorted pol streams)) 0
  have hj : ∀ j : Nat, ((Proc.classify (Proc.applyPlan pol streams))[0 + j]?).map
      (fun a => a.title)
      = ((Proc.assignTitles pol []
          (Proc.copyTracks
            (Proc.mainSel pol.defaultLanguage (Proc.classify (Proc.applyPlan pol streams)))
            (Proc.classify (Proc.applyPlan pol streams))))[j]?).map (fun t => t.title) := by
    intro j
    rw [Nat.zero_add]
    have e1 := congrArg (fun l : List String => l[j]?) (haudtitle.trans htitle2.symm)
    simpa only [List.getElem?_map] using e1
  have htitlefix : Proc.needsTitleFix (Proc.classify (Proc.applyPlan pol streams))
      (Proc.assignTitles pol []
        (Proc.copyTracks
          (Proc.mainSel pol.defaultLanguage (Proc.classify (Proc.applyPlan pol streams)))
          (Proc.classify (Proc.applyPlan pol streams)))) = false :=
    Proc.titleFix_false _ _ 0 hsrc hj
  simp [Proc.noOpRequired, hTO, h3, h4, hreorder, htitlefix]

/-- C3 (counterexample): running the engine twice is not idempotent in
general.  With the default policy and a single default DTS 5.1 English
stream, the first pass synthesizes a DD+ track titled "English - DD+ -
5.1" (not "Original", since synthesized tracks are excluded); on the
logical state the plan produces, the second pass recomputes that track's
title as "English Original - DD+ - 5.1" — the now-existing DD+ track is
first of its language — so it detects a title fix and `noOpRequired` is
false. -/
theorem idempotence_cex :
    Proc.noOpRequired defaultPolicy
        (Proc.applyPlan defaultPolicy [mkAudio "dts" 6 "eng" "" true]) = false
      ∧ Proc.needsDDP defaultPolicy
          (Proc.applyPlan defaultPolicy [mkAudio "dts" 6 "eng" "" true]) = false
      ∧ Proc.needsStereo defaultPolicy
          (Proc.applyPlan defaultPolicy [mkAudio "dts" 6 "eng" "" true]) = false
      ∧ Proc.needsTitleFix
          (Proc.classify (Proc.applyPlan defaultPolicy [mkAudio "dts" 6 "eng" "" true]))
          (Proc.titledOriginals defaultPolicy
            (Proc.applyPlan defaultPolicy [mkAudio "dts" 6 "eng" "" true])) = true := by
  exact ⟨by decide, by decide, by decide, by decide⟩

/-- C3 (witness): the amended statement applied to a single-stream state
whose only needed change is a title fix. -/
theorem secondPass_noOp_witness :
    Proc.noOpRequired defaultPolicy
      (Proc.applyPlan defaultPolicy [mkAudio "aac" 2 "eng" "wrong" true]) = true :=
  secondPass_noOp defaultPolicy [mkAudio "aac" 2 "eng" "wrong" true]
    (by decide) (by decide) (by decide) (by decide) (by decide)
